import Mathlib

/-!
Verification of the shopping-mall tax calculator's core engine against its
specification.  The TypeScript sources (`src/services/ExcelService.ts`,
`src/services/CalculationService.ts`) are shallowly embedded below:

* spreadsheet cells are modelled through the JavaScript value that reaches the
  engine: for grid-level code (`sheet_to_json` output) a cell is
  `Option String` (`none` = a hole / `null` / `undefined`, `some s` = the
  cell's string form; a numeric cell is represented by its decimal string,
  which is how every grid-level routine consumes it);
* row-level code (`parseAmount`, tax-type classification) sees typed cell
  values, modelled by `CellV` (`null`, number as `ℚ`, string);
* JavaScript numbers are modelled by exact rationals `ℚ`; the heuristic
  ratio comparisons (`x / n > 0.5` etc.) are modelled by the equivalent exact
  integer comparisons, and non-finite values (`Infinity`, `NaN` literals) are
  outside the model;
* the mutable loops of the source become folds over lists; `Map` /
  plain-object dictionaries become insertion-ordered association lists, which
  is exactly the iteration order JavaScript guarantees for them here.
-/

/-! ### Generic JavaScript string helpers -/

/-- Boolean list-prefix test (model of matching a needle at the head). -/
def listPrefixOf : List Char → List Char → Bool
  | [], _ => true
  | _ :: _, [] => false
  | a :: as, b :: bs => a == b && listPrefixOf as bs

/-- Boolean contiguous-subsequence test: does `t` occur inside `l`? -/
def listHasSeq (t : List Char) : List Char → Bool
  | [] => listPrefixOf t []
  | c :: cs => listPrefixOf t (c :: cs) || listHasSeq t cs

/-- Model of JavaScript `s.includes(t)` (substring containment). -/
def strHasSub (s t : String) : Bool := listHasSeq t.data s.data

theorem listPrefixOf_self : ∀ l, listPrefixOf l l = true := by
  intro l; induction l with
  | nil => rfl
  | cons a as ih => simp [listPrefixOf, ih]

theorem listPrefixOf_append_right : ∀ l r, listPrefixOf l (l ++ r) = true := by
  intro l; induction l with
  | nil => intro r; rfl
  | cons a as ih => intro r; simp [listPrefixOf, ih]

theorem listHasSeq_of_prefix {t l : List Char} (h : listPrefixOf t l = true) :
    listHasSeq t l = true := by
  cases l with
  | nil => simpa [listHasSeq] using h
  | cons c cs => simp [listHasSeq, h]

theorem listHasSeq_append_left {t b : List Char} (h : listHasSeq t b = true) :
    ∀ a, listHasSeq t (a ++ b) = true := by
  intro a; induction a with
  | nil => simpa using h
  | cons c cs ih => simp [listHasSeq, ih]

theorem listPrefixOf_extend {t a : List Char} (h : listPrefixOf t a = true) :
    ∀ b, listPrefixOf t (a ++ b) = true := by
  induction t generalizing a with
  | nil => intro b; rfl
  | cons x xs ih =>
    cases a with
    | nil => simp [listPrefixOf] at h
    | cons y ys =>
      intro b
      simp only [listPrefixOf, Bool.and_eq_true] at h ⊢
      exact ⟨h.1, ih h.2 b⟩

theorem listHasSeq_append_right {t a : List Char} (h : listHasSeq t a = true) :
    ∀ b, listHasSeq t (a ++ b) = true := by
  induction a with
  | nil =>
    intro b
    cases t with
    | nil => cases b with
      | nil => rfl
      | cons c cs => simp [listHasSeq, listPrefixOf]
    | cons x xs => simp [listHasSeq, listPrefixOf] at h
  | cons c cs ih =>
    intro b
    simp only [listHasSeq, Bool.or_eq_true] at h ⊢
    rcases h with h | h
    · exact Or.inl (listPrefixOf_extend h b)
    · exact Or.inr (ih h b)

theorem listHasSeq_sandwich (t a b : List Char) :
    listHasSeq t (a ++ t ++ b) = true := by
  have h₁ : listHasSeq t (t ++ b) = true :=
    listHasSeq_of_prefix (listPrefixOf_append_right t b)
  have := listHasSeq_append_left h₁ a
  simpa [List.append_assoc] using this

/-- JavaScript whitespace characters relevant to `Number`, `\s` and `trim`
(space, tab, LF, CR, VT, FF, NBSP, BOM, ideographic space). -/
def isJsWsChar (c : Char) : Bool :=
  c == ' ' || c == '\t' || c == '\n' || c == '\r' || c == Char.ofNat 11 ||
  c == Char.ofNat 12 || c == Char.ofNat 160 || c == Char.ofNat 0xFEFF ||
  c == Char.ofNat 0x3000

/-- Trim JS whitespace from both ends of a character list. -/
def trimJsWs (l : List Char) : List Char :=
  ((l.dropWhile isJsWsChar).reverse.dropWhile isJsWsChar).reverse

def isHexDig (c : Char) : Bool :=
  c.isDigit || ('a' ≤ c && c ≤ 'f') || ('A' ≤ c && c ≤ 'F')

def isOctDig (c : Char) : Bool := '0' ≤ c && c ≤ '7'

def isBinDig (c : Char) : Bool := c == '0' || c == '1'

/-- Valid exponent tail of a JS decimal literal (empty, or `e`/`E` with an
optionally signed non-empty digit string). -/
def numTail : List Char → Bool
  | [] => true
  | e :: rest =>
    (e == 'e' || e == 'E') &&
      (let rest₁ := match rest with
        | s :: r => if s == '+' || s == '-' then r else rest
        | [] => rest
       !rest₁.isEmpty && rest₁.all Char.isDigit)

/-- Valid unsigned JS decimal literal (`digits`, `digits.`, `digits.digits`,
`.digits`, each with an optional exponent). -/
def decLit (cs : List Char) : Bool :=
  let ds := cs.takeWhile Char.isDigit
  let rest := cs.drop ds.length
  if ds.isEmpty then
    match rest with
    | '.' :: fr =>
      let fs := fr.takeWhile Char.isDigit
      !fs.isEmpty && numTail (fr.drop fs.length)
    | _ => false
  else
    match rest with
    | [] => true
    | '.' :: fr =>
      let fs := fr.takeWhile Char.isDigit
      numTail (fr.drop fs.length)
    | _ => numTail rest

/-- Signed decimal or `Infinity` body of a JS `Number(...)` string. -/
def signedDec (t : List Char) : Bool :=
  let t₁ := match t with
    | c :: cs => if c == '+' || c == '-' then cs else t
    | [] => t
  t₁ == "Infinity".data || decLit t₁

/-- Model of `!isNaN(Number(s))` for a string `s`: `Number` trims whitespace,
maps the empty string to `0`, and otherwise requires the whole remainder to be
a numeric literal (decimal, hex `0x…`, octal `0o…`, binary `0b…`,
or `±Infinity`). -/
def jsIsNumeric (s : String) : Bool :=
  match trimJsWs s.data with
  | [] => true
  | '0' :: c :: rest =>
    if c == 'x' || c == 'X' then !rest.isEmpty && rest.all isHexDig
    else if c == 'o' || c == 'O' then !rest.isEmpty && rest.all isOctDig
    else if c == 'b' || c == 'B' then !rest.isEmpty && rest.all isBinDig
    else signedDec ('0' :: c :: rest)
  | t => signedDec t

/-- Digit-string value: `digitsToNat "1234".data = 1234`. -/
def digitsToNat (cs : List Char) : Nat :=
  cs.foldl (fun a c => 10 * a + (c.toNat - 48)) 0

/-- Model of JavaScript `parseFloat`: skip leading whitespace, optional sign,
then the longest decimal-literal prefix (`none` = `NaN`, i.e. no digits at
all).  Non-finite results (`Infinity` literals, overflowing exponents) have no
counterpart in `ℚ` and are outside the model. -/
def jsParseFloat (s : String) : Option ℚ :=
  let t := s.data.dropWhile isJsWsChar
  let sgn : Int := match t with
    | '-' :: _ => -1
    | _ => 1
  let t₁ := match t with
    | c :: cs => if c == '+' || c == '-' then cs else t
    | [] => t
  let ds := t₁.takeWhile Char.isDigit
  let rest := t₁.drop ds.length
  let fs := match rest with
    | '.' :: fr => fr.takeWhile Char.isDigit
    | _ => []
  let rest₂ := match rest with
    | '.' :: fr => fr.drop (fr.takeWhile Char.isDigit).length
    | _ => rest
  if ds.isEmpty && fs.isEmpty then none
  else
    let base : Int := sgn * ((digitsToNat ds) * 10 ^ fs.length + digitsToNat fs)
    let e : Int := match rest₂ with
      | c :: r =>
        if c == 'e' || c == 'E' then
          match r with
          | '-' :: r₂ =>
            let eds := r₂.takeWhile Char.isDigit
            if eds.isEmpty then 0 else -(digitsToNat eds : Int)
          | '+' :: r₂ =>
            let eds := r₂.takeWhile Char.isDigit
            if eds.isEmpty then 0 else (digitsToNat eds : Int)
          | _ =>
            let eds := r.takeWhile Char.isDigit
            if eds.isEmpty then 0 else (digitsToNat eds : Int)
        else 0
      | [] => 0
    some (if 0 ≤ e then mkRat (base * 10 ^ e.toNat) (10 ^ fs.length)
          else mkRat base (10 ^ fs.length * 10 ^ (-e).toNat))

/-! ### Grid model and the Merge Resolver (`processMergedCells`) -/

/-- A grid cell as seen by the grid-level code: `none` is a hole / `null` /
`undefined`, `some s` a cell whose string form is `s`. -/
abbrev Cell := Option String

/-- A grid: rows of cells, as produced by `sheet_to_json(ws, {header: 1})`. -/
abbrev Grid := List (List Cell)

/-- JavaScript falsiness of a cell value (`undefined` and the empty string are
the falsy values that occur in a string-valued grid). -/
def cellFalsy : Cell → Bool
  | none => true
  | some s => s == ""

/-- Read cell `(r, c)`; out-of-range reads are `undefined`. -/
def getCell (g : Grid) (r c : Nat) : Cell := (g.getD r []).getD c none

/-- Model of the JS assignment `row[c] = v` (extending the array with holes
when `c` is past the end). -/
def setPad (row : List Cell) (c : Nat) (v : Cell) : List Cell :=
  if c < row.length then row.set c v
  else row ++ List.replicate (c - row.length) none ++ [v]

/-- A merge rectangle, mirroring `merge.s.r / merge.s.c / merge.e.r /
merge.e.c` of the `xlsx` merge objects (all bounds inclusive). -/
structure MergeRegion where
  sr : Nat
  sc : Nat
  er : Nat
  ec : Nat
  deriving DecidableEq, Repr

/-- Membership of a coordinate in a merge rectangle. -/
def containsCell (m : MergeRegion) (r c : Nat) : Prop :=
  m.sr ≤ r ∧ r ≤ m.er ∧ m.sc ≤ c ∧ c ≤ m.ec

instance (m : MergeRegion) (r c : Nat) : Decidable (containsCell m r c) := by
  unfold containsCell; infer_instance

/-- Two merge rectangles are disjoint when no coordinate lies in both. -/
def regionsDisjoint (m₁ m₂ : MergeRegion) : Prop :=
  ∀ r c, ¬(containsCell m₁ r c ∧ containsCell m₂ r c)

/-- Inner column loop of `processMergedCells`: starting at column `c`, for `n`
further columns write `v` into every currently-falsy cell. -/
def fillCols (v : Cell) (row : List Cell) (c : Nat) : Nat → List Cell
  | 0 => row
  | n + 1 =>
    fillCols v (if cellFalsy (row.getD c none) then setPad row c v else row) (c + 1) n

/-- One row of the merge fill: columns `sc … ec` (inclusive). -/
def fillRow (v : Cell) (row : List Cell) (sc ec : Nat) : List Cell :=
  fillCols v row sc (ec + 1 - sc)

/-- Row loop of the merge fill; `r` is the index of the first row of `g`.
Rows outside `[m.sr, m.er]` are untouched, and the loop never runs past the
end of the grid (`r < processedData.length`). -/
def fillRows (v : Cell) (m : MergeRegion) : Nat → Grid → Grid
  | _, [] => []
  | r, row :: rest =>
    (if m.sr ≤ r ∧ r ≤ m.er then fillRow v row m.sc m.ec else row) ::
      fillRows v m (r + 1) rest

/-- Processing of a single merge region: the origin value is read once, then
propagated into every empty cell of the rectangle (`ExcelService.ts`,
`processMergedCells` inner `forEach`). -/
def fillRegion (g : Grid) (m : MergeRegion) : Grid :=
  fillRows (getCell g m.sr m.sc) m 0 g

/-- Embedding of `ExcelService.processMergedCells` (ExcelService.ts:271-293).
The JS deep copy makes the function pure; here purity is intrinsic. -/
def processMergedCells (g : Grid) (ms : List MergeRegion) : Grid :=
  ms.foldl fillRegion g

/-! ### Merge Resolver: cell-level characterization -/


theorem getD_setPad (row : List Cell) (c : Nat) (v : Cell) (p : Nat) :
    (setPad row c v).getD p none = if p = c then v else row.getD p none := by
  unfold setPad
  by_cases hc : c < row.length
  · simp only [if_pos hc, List.getD_eq_getElem?_getD, List.getElem?_set]
    by_cases hpc : p = c
    · subst hpc; simp [hc]
    · simp [Ne.symm hpc, hpc]
  · push_neg at hc
    simp only [if_neg (Nat.not_lt.mpr hc), List.append_assoc, List.getD_eq_getElem?_getD,
      List.getElem?_append]
    by_cases hp : p < row.length
    · simp [hp, show p ≠ c from by omega]
    · push_neg at hp
      rw [if_neg (Nat.not_lt.mpr hp)]
      have hrow : row[p]? = none := List.getElem?_eq_none hp
      by_cases hpc : p = c
      · subst hpc
        simp [List.length_replicate, Nat.sub_self]
      · by_cases hlt : p - row.length < c - row.length
        · simp [List.length_replicate, hlt, List.getElem?_replicate, hpc, hrow]
        · have hnone : ([v] : List Cell)[p - row.length - (c - row.length)]? = none :=
            List.getElem?_eq_none (by simp; omega)
          simp [List.length_replicate, hlt, hnone, hpc, hrow]

theorem length_setPad (row : List Cell) (c : Nat) (v : Cell) :
    (setPad row c v).length = max row.length (c + 1) := by
  unfold setPad
  by_cases hc : c < row.length
  · rw [if_pos hc, List.length_set]; omega
  · rw [if_neg hc]; push_neg at hc
    simp only [List.length_append, List.length_replicate, List.length_cons,
      List.length_nil]
    omega

theorem getD_fillCols (v : Cell) :
    ∀ (n : Nat) (row : List Cell) (c p : Nat),
      (fillCols v row c n).getD p none =
        if c ≤ p ∧ p < c + n ∧ cellFalsy (row.getD p none) then v
        else row.getD p none := by
  intro n
  induction n with
  | zero =>
    intro row c p
    rw [fillCols, if_neg (by rintro ⟨_, h, _⟩; omega)]
  | succ n ih =>
    intro row c p
    rw [fillCols, ih]
    have hrow' : ∀ q, q ≠ c →
        (if cellFalsy (row.getD c none) then setPad row c v else row).getD q none =
          row.getD q none := by
      intro q hq
      by_cases hf : cellFalsy (row.getD c none)
      · rw [if_pos hf, getD_setPad, if_neg hq]
      · rw [if_neg hf]
    by_cases hpc : p = c
    · subst hpc
      rw [if_neg (by rintro ⟨h, _, _⟩; omega)]
      by_cases hf : cellFalsy (row.getD p none)
      · rw [if_pos hf, getD_setPad, if_pos rfl, if_pos ⟨le_refl p, by omega, hf⟩]
      · rw [if_neg hf, if_neg (by rintro ⟨_, _, h⟩; exact hf h)]
    · rw [show (if cellFalsy (row.getD c none) then setPad row c v else row).getD p none =
          row.getD p none from hrow' p hpc]
      by_cases hr : c + 1 ≤ p ∧ p < c + 1 + n ∧ cellFalsy (row.getD p none)
      · rw [if_pos hr, if_pos ⟨by omega, by omega, hr.2.2⟩]
      · rw [if_neg hr,
          if_neg (by rintro ⟨h1, h2, h3⟩; exact hr ⟨by omega, by omega, h3⟩)]

theorem length_fillCols (v : Cell) :
    ∀ (n : Nat) (row : List Cell) (c : Nat),
      (fillCols v row c n).length = if n = 0 then row.length else max row.length (c + n) := by
  intro n
  induction n with
  | zero => intro row c; simp [fillCols]
  | succ n ih =>
    intro row c
    rw [fillCols, ih]
    have hstep : (if cellFalsy (row.getD c none) then setPad row c v else row).length =
        max row.length (c + 1) := by
      by_cases hf : cellFalsy (row.getD c none)
      · rw [if_pos hf, length_setPad]
      · rw [if_neg hf]
        have hc : c < row.length := by
          by_contra hge
          push_neg at hge
          have hnone : row.getD c none = none := by
            simp [List.getD_eq_getElem?_getD, List.getElem?_eq_none hge]
          rw [hnone] at hf
          exact hf rfl
        omega
    rw [if_neg (Nat.succ_ne_zero n)]
    by_cases hn : n = 0
    · subst hn
      rw [if_pos rfl, hstep]
    · rw [if_neg hn, hstep]
      omega

theorem getD_fillRow (v : Cell) (row : List Cell) (sc ec p : Nat) :
    (fillRow v row sc ec).getD p none =
      if sc ≤ p ∧ p ≤ ec ∧ cellFalsy (row.getD p none) then v
      else row.getD p none := by
  rw [fillRow, getD_fillCols]
  by_cases h : sc ≤ p ∧ p ≤ ec ∧ cellFalsy (row.getD p none)
  · rw [if_pos ⟨h.1, by omega, h.2.2⟩, if_pos h]
  · rw [if_neg (by intro hx; exact h ⟨hx.1, by omega, hx.2.2⟩), if_neg h]

theorem length_fillRow (v : Cell) (row : List Cell) (sc ec : Nat) :
    (fillRow v row sc ec).length =
      if sc ≤ ec then max row.length (ec + 1) else row.length := by
  rw [fillRow, length_fillCols]
  by_cases h : sc ≤ ec
  · rw [if_pos h, if_neg (by omega)]
    congr 1
    omega
  · rw [if_neg h, if_pos (by omega)]

theorem length_fillRows (v : Cell) (m : MergeRegion) :
    ∀ (g : Grid) (r : Nat), (fillRows v m r g).length = g.length := by
  intro g
  induction g with
  | nil => intro r; rfl
  | cons row rest ih => intro r; simp [fillRows, ih]

theorem getD_fillRows (v : Cell) (m : MergeRegion) :
    ∀ (g : Grid) (r i : Nat),
      (fillRows v m r g).getD i [] =
        if i < g.length then
          (if m.sr ≤ r + i ∧ r + i ≤ m.er then fillRow v (g.getD i []) m.sc m.ec
           else g.getD i [])
        else [] := by
  intro g
  induction g with
  | nil => intro r i; simp [fillRows]
  | cons row rest ih =>
    intro r i
    cases i with
    | zero => simp [fillRows, List.getD]
    | succ j =>
      have hstep : (fillRows v m r (row :: rest)).getD (j + 1) [] =
          (fillRows v m (r + 1) rest).getD j [] := by
        simp [fillRows, List.getD_cons_succ]
      rw [hstep, ih (r + 1) j]
      rw [show r + 1 + j = r + (j + 1) from by omega]
      simp only [List.length_cons]
      by_cases hj : j < rest.length
      · rw [if_pos hj, if_pos (show j + 1 < rest.length + 1 from by omega)]
        simp [List.getD_cons_succ]
      · rw [if_neg hj, if_neg (show ¬ (j + 1 < rest.length + 1) from by omega)]

theorem length_fillRegion (g : Grid) (m : MergeRegion) :
    (fillRegion g m).length = g.length := by
  unfold fillRegion
  exact length_fillRows _ m g 0

theorem getD_nil_of_ge {g : Grid} {r : Nat} (h : g.length ≤ r) : g.getD r [] = [] := by
  simp [List.getD_eq_getElem?_getD, List.getElem?_eq_none h]

theorem getCell_fillRegion (g : Grid) (m : MergeRegion) (r c : Nat) :
    getCell (fillRegion g m) r c =
      if m.sr ≤ r ∧ r ≤ m.er ∧ r < g.length ∧ m.sc ≤ c ∧ c ≤ m.ec ∧
          cellFalsy (getCell g r c) then getCell g m.sr m.sc
      else getCell g r c := by
  unfold fillRegion getCell
  rw [getD_fillRows]
  simp only [Nat.zero_add]
  by_cases hl : r < g.length
  · rw [if_pos hl]
    by_cases hr : m.sr ≤ r ∧ r ≤ m.er
    · rw [if_pos hr, getD_fillRow]
      by_cases hc : m.sc ≤ c ∧ c ≤ m.ec ∧ cellFalsy ((g.getD r []).getD c none)
      · rw [if_pos hc, if_pos ⟨hr.1, hr.2, hl, hc.1, hc.2.1, hc.2.2⟩]
      · rw [if_neg hc, if_neg (fun hx => hc ⟨hx.2.2.2.1, hx.2.2.2.2.1, hx.2.2.2.2.2⟩)]
    · rw [if_neg hr, if_neg (fun hx => hr ⟨hx.1, hx.2.1⟩)]
  · rw [if_neg hl, if_neg (fun hx => hl hx.2.2.1)]
    rw [getD_nil_of_ge (Nat.le_of_not_lt hl)]

theorem length_processMergedCells :
    ∀ (ms : List MergeRegion) (g : Grid), (processMergedCells g ms).length = g.length := by
  intro ms
  induction ms with
  | nil => intro g; rfl
  | cons m rest ih =>
    intro g
    show (processMergedCells (fillRegion g m) rest).length = g.length
    rw [ih, length_fillRegion]

theorem getCell_pmc_truthy :
    ∀ (ms : List MergeRegion) (g : Grid) (r c : Nat),
      cellFalsy (getCell g r c) = false →
      getCell (processMergedCells g ms) r c = getCell g r c := by
  intro ms
  induction ms with
  | nil => intro g r c _; rfl
  | cons m rest ih =>
    intro g r c ht
    show getCell (processMergedCells (fillRegion g m) rest) r c = getCell g r c
    have h1 : getCell (fillRegion g m) r c = getCell g r c := by
      rw [getCell_fillRegion, if_neg (by rintro ⟨_, _, _, _, _, hf⟩; rw [ht] at hf; cases hf)]
    rw [ih (fillRegion g m) r c (by rw [h1]; exact ht), h1]

theorem getCell_pmc_outside :
    ∀ (ms : List MergeRegion) (g : Grid) (r c : Nat),
      (∀ m ∈ ms, ¬ containsCell m r c) →
      getCell (processMergedCells g ms) r c = getCell g r c := by
  intro ms
  induction ms with
  | nil => intro g r c _; rfl
  | cons m rest ih =>
    intro g r c hout
    show getCell (processMergedCells (fillRegion g m) rest) r c = getCell g r c
    have h1 : getCell (fillRegion g m) r c = getCell g r c := by
      rw [getCell_fillRegion,
        if_neg (by rintro ⟨h1, h2, _, h3, h4, _⟩
                   exact hout m (List.mem_cons_self m rest) ⟨h1, h2, h3, h4⟩)]
    rw [ih (fillRegion g m) r c (fun m' hm' => hout m' (List.mem_cons_of_mem m hm')), h1]

theorem containsCell_origin {m : MergeRegion} {r c : Nat} (h : containsCell m r c) :
    containsCell m m.sr m.sc := by
  rcases h with ⟨h1, h2, h3, h4⟩
  exact ⟨le_refl _, by omega, le_refl _, by omega⟩

theorem getCell_pmc_filled :
    ∀ (ms : List MergeRegion) (g : Grid) (r c : Nat) (m : MergeRegion),
      List.Pairwise regionsDisjoint ms → m ∈ ms → containsCell m r c →
      r < g.length → cellFalsy (getCell g r c) = true →
      getCell (processMergedCells g ms) r c = getCell g m.sr m.sc := by
  intro ms
  induction ms with
  | nil => intro g r c m _ hm; cases hm
  | cons m₀ rest ih =>
    intro g r c m hp hm hcont hlen hf
    show getCell (processMergedCells (fillRegion g m₀) rest) r c = getCell g m.sr m.sc
    rcases List.mem_cons.mp hm with hm | hm
    · subst hm
      have h1 : getCell (fillRegion g m) r c = getCell g m.sr m.sc := by
        rw [getCell_fillRegion,
          if_pos ⟨hcont.1, hcont.2.1, hlen, hcont.2.2.1, hcont.2.2.2, hf⟩]
      have hout : ∀ m' ∈ rest, ¬ containsCell m' r c := by
        intro m' hm' hc'
        exact (List.pairwise_cons.mp hp).1 m' hm' r c ⟨hcont, hc'⟩
      rw [getCell_pmc_outside rest (fillRegion g m) r c hout, h1]
    · have hd : regionsDisjoint m₀ m := (List.pairwise_cons.mp hp).1 m hm
      have hnc : ¬ containsCell m₀ r c := fun hc₀ => hd r c ⟨hc₀, hcont⟩
      have hno : ¬ containsCell m₀ m.sr m.sc :=
        fun hc₀ => hd m.sr m.sc ⟨hc₀, containsCell_origin hcont⟩
      have h1 : getCell (fillRegion g m₀) r c = getCell g r c := by
        rw [getCell_fillRegion,
          if_neg (by rintro ⟨h1, h2, _, h3, h4, _⟩; exact hnc ⟨h1, h2, h3, h4⟩)]
      have h2 : getCell (fillRegion g m₀) m.sr m.sc = getCell g m.sr m.sc := by
        rw [getCell_fillRegion,
          if_neg (by rintro ⟨h1, h2, _, h3, h4, _⟩; exact hno ⟨h1, h2, h3, h4⟩)]
      have h3 := ih (fillRegion g m₀) r c m (List.pairwise_cons.mp hp).2 hm hcont
        (by rw [length_fillRegion]; exact hlen) (by rw [h1]; exact hf)
      rw [h3, h2]

/-- Claim C2: for every grid and every set of (pairwise disjoint, per the
`MergeRegion` data-model invariant) merge regions, `processMergedCells`
returns a grid in which every cell of a region's rectangle that is absent or
empty receives the value of that region's origin cell `(startRow, startCol)`,
while every cell already holding an explicit (truthy) value is left
untouched.  The input grid is not modified: the embedding is a pure function
of `g`, mirroring the deep copy the source makes before writing. -/
theorem claim_C2 (g : Grid) (ms : List MergeRegion)
    (hdisj : List.Pairwise regionsDisjoint ms) :
    (∀ m ∈ ms, ∀ r c, containsCell m r c → r < g.length →
        cellFalsy (getCell g r c) = true →
        getCell (processMergedCells g ms) r c = getCell g m.sr m.sc) ∧
    (∀ r c, cellFalsy (getCell g r c) = false →
        getCell (processMergedCells g ms) r c = getCell g r c) := by
  constructor
  · intro m hm r c hcont hlen hf
    exact getCell_pmc_filled ms g r c m hdisj hm hcont hlen hf
  · intro r c ht
    exact getCell_pmc_truthy ms g r c ht

/-- Witness for C2 at a concrete grid: the region `(0,0)–(1,1)` propagates the
origin value `"X"` into the empty cell `(0,1)` and leaves the explicit value
`"Y"` at `(1,1)` untouched. -/
theorem claim_C2_witness :
    getCell (processMergedCells [[some "X", none], [none, some "Y"]]
      [⟨0, 0, 1, 1⟩]) 0 1 = some "X" ∧
    getCell (processMergedCells [[some "X", none], [none, some "Y"]]
      [⟨0, 0, 1, 1⟩]) 1 1 = some "Y" := by
  have hp : List.Pairwise regionsDisjoint [(⟨0, 0, 1, 1⟩ : MergeRegion)] := by
    simp
  have h := claim_C2 [[some "X", none], [none, some "Y"]] [⟨0, 0, 1, 1⟩] hp
  constructor
  · exact (h.1 ⟨0, 0, 1, 1⟩ (by simp) 0 1 (by decide)
      (by simp) (by decide)).trans (by decide)
  · exact (h.2 1 1 (by decide)).trans (by decide)

/-! ### Merge Resolver: row-length characterization and idempotence -/

theorem length_row_fillRegion (g : Grid) (m : MergeRegion) (i : Nat) (hi : i < g.length) :
    ((fillRegion g m).getD i []).length =
      if m.sr ≤ i ∧ i ≤ m.er ∧ m.sc ≤ m.ec then max ((g.getD i []).length) (m.ec + 1)
      else (g.getD i []).length := by
  unfold fillRegion
  rw [getD_fillRows]
  simp only [Nat.zero_add]
  rw [if_pos hi]
  by_cases h1 : m.sr ≤ i ∧ i ≤ m.er
  · rw [if_pos h1, length_fillRow]
    by_cases h2 : m.sc ≤ m.ec
    · rw [if_pos h2, if_pos ⟨h1.1, h1.2, h2⟩]
    · rw [if_neg h2, if_neg (fun hx => h2 hx.2.2)]
  · rw [if_neg h1, if_neg (fun hx => h1 ⟨hx.1, hx.2.1⟩)]

/-- Net effect of one region on the length of row `i`. -/
def regionRowLenStep (i L : Nat) (m : MergeRegion) : Nat :=
  if m.sr ≤ i ∧ i ≤ m.er ∧ m.sc ≤ m.ec then max L (m.ec + 1) else L

theorem rowlen_pmc :
    ∀ (ms : List MergeRegion) (g : Grid) (i : Nat), i < g.length →
      ((processMergedCells g ms).getD i []).length =
        ms.foldl (regionRowLenStep i) ((g.getD i []).length) := by
  intro ms
  induction ms with
  | nil => intro g i _; rfl
  | cons m rest ih =>
    intro g i hi
    show ((processMergedCells (fillRegion g m) rest).getD i []).length = _
    rw [ih (fillRegion g m) i (by rw [length_fillRegion]; exact hi)]
    rw [show ((fillRegion g m).getD i []).length =
        regionRowLenStep i ((g.getD i []).length) m from length_row_fillRegion g m i hi]
    rfl

theorem foldl_rls_le (i : Nat) :
    ∀ (ms : List MergeRegion) (L : Nat), L ≤ ms.foldl (regionRowLenStep i) L := by
  intro ms
  induction ms with
  | nil => intro L; exact le_refl L
  | cons m rest ih =>
    intro L
    refine le_trans ?_ (ih (regionRowLenStep i L m))
    unfold regionRowLenStep
    by_cases h : m.sr ≤ i ∧ i ≤ m.er ∧ m.sc ≤ m.ec
    · rw [if_pos h]; omega
    · rw [if_neg h]

theorem foldl_rls_elem (i : Nat) :
    ∀ (ms : List MergeRegion) (L : Nat) (m : MergeRegion), m ∈ ms →
      (m.sr ≤ i ∧ i ≤ m.er ∧ m.sc ≤ m.ec) →
      m.ec + 1 ≤ ms.foldl (regionRowLenStep i) L := by
  intro ms
  induction ms with
  | nil => intro L m hm; cases hm
  | cons m₀ rest ih =>
    intro L m hm hc
    rcases List.mem_cons.mp hm with hm | hm
    · subst hm
      refine le_trans ?_ (foldl_rls_le i rest (regionRowLenStep i L m))
      unfold regionRowLenStep
      rw [if_pos hc]
      omega
    · exact ih (regionRowLenStep i L m₀) m hm hc

theorem foldl_rls_absorb (i : Nat) :
    ∀ (ms : List MergeRegion) (L : Nat),
      (∀ m ∈ ms, (m.sr ≤ i ∧ i ≤ m.er ∧ m.sc ≤ m.ec) → m.ec + 1 ≤ L) →
      ms.foldl (regionRowLenStep i) L = L := by
  intro ms
  induction ms with
  | nil => intro L _; rfl
  | cons m rest ih =>
    intro L hb
    have hstep : regionRowLenStep i L m = L := by
      unfold regionRowLenStep
      by_cases h : m.sr ≤ i ∧ i ≤ m.er ∧ m.sc ≤ m.ec
      · rw [if_pos h]
        have := hb m (List.mem_cons_self m rest) h
        omega
      · rw [if_neg h]
    show rest.foldl (regionRowLenStep i) (regionRowLenStep i L m) = L
    rw [hstep]
    exact ih L (fun m' hm' hc' => hb m' (List.mem_cons_of_mem m hm') hc')

theorem grid_eq_ext (g₁ g₂ : Grid) (hlen : g₁.length = g₂.length)
    (hrlen : ∀ i, i < g₁.length → (g₁.getD i []).length = (g₂.getD i []).length)
    (hget : ∀ i c, getCell g₁ i c = getCell g₂ i c) : g₁ = g₂ := by
  apply List.ext_getElem hlen
  intro i h₁ h₂
  have hrow₁ : g₁.getD i [] = g₁[i] := List.getD_eq_getElem g₁ [] h₁
  have hrow₂ : g₂.getD i [] = g₂[i] := List.getD_eq_getElem g₂ [] h₂
  apply List.ext_getElem
  · have := hrlen i h₁
    rw [hrow₁, hrow₂] at this
    exact this
  · intro c hc₁ hc₂
    have := hget i c
    unfold getCell at this
    rw [hrow₁, hrow₂, List.getD_eq_getElem _ none hc₁, List.getD_eq_getElem _ none hc₂] at this
    exact this

/-- Claim C9: merge resolution is idempotent — resolving merges (with the
pairwise-disjoint regions guaranteed by the `MergeRegion` invariant) on an
already-resolved grid yields the same grid, cell for cell. -/
theorem claim_C9 (g : Grid) (ms : List MergeRegion)
    (hdisj : List.Pairwise regionsDisjoint ms) :
    processMergedCells (processMergedCells g ms) ms = processMergedCells g ms := by
  have hGlen : (processMergedCells g ms).length = g.length := length_processMergedCells ms g
  apply grid_eq_ext
  · simp [length_processMergedCells]
  · intro i hi
    rw [length_processMergedCells] at hi
    rw [hGlen] at hi
    rw [rowlen_pmc ms (processMergedCells g ms) i (by rw [hGlen]; exact hi)]
    rw [rowlen_pmc ms g i hi]
    exact foldl_rls_absorb i ms _ (fun m hm hc => foldl_rls_elem i ms _ m hm hc)
  · intro i c
    by_cases hilen : i < g.length
    · by_cases hf : cellFalsy (getCell (processMergedCells g ms) i c) = true
      · by_cases hex : ∃ m ∈ ms, containsCell m i c
        · rcases hex with ⟨m, hm, hcont⟩
          have hGi : i < (processMergedCells g ms).length := by rw [hGlen]; exact hilen
          have h1 : getCell (processMergedCells (processMergedCells g ms) ms) i c =
              getCell (processMergedCells g ms) m.sr m.sc :=
            getCell_pmc_filled ms (processMergedCells g ms) i c m hdisj hm hcont hGi hf
          by_cases hfg : cellFalsy (getCell g i c) = true
          · have h2 : getCell (processMergedCells g ms) i c = getCell g m.sr m.sc :=
              getCell_pmc_filled ms g i c m hdisj hm hcont hilen hfg
            have h3 : getCell (processMergedCells g ms) m.sr m.sc = getCell g m.sr m.sc := by
              by_cases hfo : cellFalsy (getCell g m.sr m.sc) = true
              · exact getCell_pmc_filled ms g m.sr m.sc m hdisj hm
                  (containsCell_origin hcont)
                  (by rcases hcont with ⟨h1, _, _, _⟩; omega) hfo
              · exact getCell_pmc_truthy ms g m.sr m.sc
                  (by revert hfo; cases cellFalsy (getCell g m.sr m.sc) <;> simp)
            rw [h1, h3, h2]
          · have h2 : getCell (processMergedCells g ms) i c = getCell g i c :=
              getCell_pmc_truthy ms g i c
                (by revert hfg; cases cellFalsy (getCell g i c) <;> simp)
            rw [h2] at hf
            exact absurd hf hfg
        · push_neg at hex
          exact getCell_pmc_outside ms (processMergedCells g ms) i c hex
      · exact getCell_pmc_truthy ms (processMergedCells g ms) i c
          (by revert hf; cases cellFalsy (getCell (processMergedCells g ms) i c) <;> simp)
    · push_neg at hilen
      have e1 : getCell (processMergedCells (processMergedCells g ms) ms) i c = none := by
        unfold getCell
        rw [getD_nil_of_ge (by rw [length_processMergedCells, hGlen]; exact hilen)]
        rfl
      have e2 : getCell (processMergedCells g ms) i c = none := by
        unfold getCell
        rw [getD_nil_of_ge (by rw [hGlen]; exact hilen)]
        rfl
      rw [e1, e2]

/-- Witness for C9 at a concrete grid and regions. -/
theorem claim_C9_witness :
    List.Pairwise regionsDisjoint [(⟨0, 0, 0, 2⟩ : MergeRegion)] ∧
    processMergedCells
        (processMergedCells [[some "H", none, some ""], [some "1"]] [⟨0, 0, 0, 2⟩])
        [⟨0, 0, 0, 2⟩] =
      processMergedCells [[some "H", none, some ""], [some "1"]] [⟨0, 0, 0, 2⟩] :=
  ⟨by simp, claim_C9 [[some "H", none, some ""], [some "1"]] [⟨0, 0, 0, 2⟩] (by simp)⟩

/-! ### Amount and date normalizer (`parseAmount`, `parseDate` numeric branch) -/

/-- A typed cell value as seen by the row-level code: `null` covers JS
`null` / `undefined` / a missing property. -/
inductive CellV where
  | null : CellV
  | num : ℚ → CellV
  | str : String → CellV
  deriving DecidableEq, Repr

/-- Characters stripped by `parseAmount` before parsing:
`value.replace(/[₩$,\s]/g, '')`. -/
def isAmountStripChar (c : Char) : Bool :=
  c == '₩' || c == '$' || c == ',' || isJsWsChar c

/-- The cleaned string handed to `parseFloat` by `parseAmount`. -/
def cleanAmount (s : String) : String :=
  ⟨s.data.filter (fun c => !isAmountStripChar c)⟩

/-- Embedding of `ExcelService.parseAmount` (ExcelService.ts:964-972): a
number passes through, a string is stripped of currency symbols, thousands
separators and whitespace and parsed as a decimal, anything else (and any
unparsable remainder, via `parseFloat(...) || 0`) yields `0`. -/
def parseAmount : CellV → ℚ
  | .num q => q
  | .str s => (jsParseFloat (cleanAmount s)).getD 0
  | .null => 0

/-- A calendar date (proleptic Gregorian). -/
structure SimpleDate where
  year : Int
  month : Int
  day : Int
  deriving DecidableEq, Repr

/-- Civil date of a day count relative to 1970-01-01 (the UTC calendar date
JavaScript's `Date` accessors expose for that instant). -/
def civilFromDays (z : Int) : SimpleDate :=
  let z' := z + 719468
  let era := (if 0 ≤ z' then z' else z' - 146096) / 146097
  let doe := z' - era * 146097
  let yoe := (doe - doe / 1460 + doe / 36524 - doe / 146096) / 365
  let y := yoe + era * 400
  let doy := doe - (365 * yoe + yoe / 4 - yoe / 100)
  let mp := (5 * doy + 2) / 153
  let d := doy - (153 * mp + 2) / 5 + 1
  let m := mp + (if mp < 10 then 3 else -9)
  ⟨y + (if m ≤ 2 then 1 else 0), m, d⟩

/-- Embedding of the numeric branch of `ExcelService.parseDate`
(ExcelService.ts:647-656): an Excel serial is accepted iff it lies in
`[1, 2958465]` and is converted by
`new Date((value - 25569) * 86400 * 1000)`; the calendar date of that instant
is `1899-12-30 + ⌊value⌋ days`, i.e. `civilFromDays (⌊value⌋ - 25569)`. -/
def parseDateSerial (v : ℚ) : Option SimpleDate :=
  if v < 1 ∨ v > 2958465 then none
  else some (civilFromDays (⌊v⌋ - 25569))

/-- Claim C6: `parseAmount` returns numeric cells unchanged, strips currency
symbols / separators / whitespace from strings and parses the remainder as a
decimal, and returns `0` (never an error) for absent or unparsable values; in
particular `"₩1,234,567" → 1234567`, `"$1,234,567" → 1234567`, `"" → 0`, and
`null`/`undefined` → 0. -/
theorem claim_C6 :
    (∀ q : ℚ, parseAmount (.num q) = q) ∧
    parseAmount .null = 0 ∧
    parseAmount (.str "₩1,234,567") = 1234567 ∧
    parseAmount (.str "$1,234,567") = 1234567 ∧
    parseAmount (.str "") = 0 ∧
    (∀ s, jsParseFloat (cleanAmount s) = none → parseAmount (.str s) = 0) ∧
    (∀ s q, jsParseFloat (cleanAmount s) = some q → parseAmount (.str s) = q) := by
  refine ⟨fun q => rfl, rfl, by decide, by decide, by decide, ?_, ?_⟩
  · intro s h
    simp [parseAmount, h]
  · intro s q h
    simp [parseAmount, h]

/-- Witness for C6: the implications instantiated at concrete strings. -/
theorem claim_C6_witness :
    jsParseFloat (cleanAmount "abc") = none ∧ parseAmount (.str "abc") = 0 ∧
    jsParseFloat (cleanAmount "₩12.5") = some (mkRat 25 2) ∧
    parseAmount (.str "₩12.5") = mkRat 25 2 :=
  ⟨by decide, claim_C6.2.2.2.2.2.1 "abc" (by decide), by decide,
    claim_C6.2.2.2.2.2.2 "₩12.5" (mkRat 25 2) (by decide)⟩

/-- Claim C7: a numeric date cell is accepted exactly when it lies in the
Excel serial range `1 … 2 958 465` (inclusive); the accepted value is
converted via the 1899-12-30 epoch at 86 400 seconds per day, and in
particular serial `45306` parses to the calendar date 2024-01-15. -/
theorem claim_C7 :
    (∀ v : ℚ, (parseDateSerial v).isSome ↔ (1 ≤ v ∧ v ≤ 2958465)) ∧
    parseDateSerial 45306 = some ⟨2024, 1, 15⟩ := by
  constructor
  · intro v
    unfold parseDateSerial
    by_cases h : v < 1 ∨ v > 2958465
    · rw [if_pos h]
      simp only [Option.isSome_none, Bool.false_eq_true, false_iff]
      rintro ⟨h1, h2⟩
      rcases h with h | h
      · exact absurd h (not_lt.mpr h1)
      · exact absurd h (not_lt.mpr h2)
    · rw [if_neg h]
      push_neg at h
      simp only [Option.isSome_some, true_iff]
      exact ⟨le_of_not_lt (fun hc => (not_lt.mpr h.1) hc),
        le_of_not_lt (fun hc => (not_lt.mpr h.2) hc)⟩
  · decide

/-- Witness for C7: the range characterization applied at the concrete serial
`45306`. -/
theorem claim_C7_witness :
    (1 ≤ (45306 : ℚ) ∧ (45306 : ℚ) ≤ 2958465) ∧ (parseDateSerial 45306).isSome :=
  ⟨by decide, (claim_C7.1 45306).mpr (by decide)⟩

/-! ### Multi-Row Header Combiner (`combineMultiRowHeaders`) -/

/-- Model of `(cell || '').toString().trim()` for a string-valued cell
(JS `trim` removes the whitespace characters of `isJsWsChar`). -/
def cellStr (c : Cell) : String := ⟨trimJsWs (c.getD "").data⟩

/-- Model of `cell && cell.toString().trim() !== ''` for a string-valued cell. -/
def cellNonEmpty (c : Cell) : Bool := cellStr c ≠ ""

/-- Model of `cell ? cell.toString() : ''` (no trim). -/
def cellRaw (c : Cell) : String := c.getD ""

/-- One plus the index of the last non-empty cell of a row (`maxPrimaryCol + 1`
in the source; `0` when the row has no meaningful cell). -/
def lastNonEmptyLen (row : List Cell) : Nat :=
  (row.reverse.dropWhile (fun c => !cellNonEmpty c)).length

/-- Single-row header extraction:
`headerRow.map(cell => (cell || '').toString().trim()).filter(header => header)`. -/
def simpleHeaders (row : List Cell) : List String :=
  (row.map cellStr).filter (fun h => h ≠ "")

/-- The `isSimpleStructure` test of `combineMultiRowHeaders`
(ExcelService.ts:330-341): the secondary row is ≥ 60 % filled and has
repeated tax-type tokens in < 50 % of the columns.  The float ratio
comparisons are modelled by the equivalent exact integer comparisons. -/
def isSimpleStructureB (data : Grid) (r0 r1 : Nat) : Bool :=
  let primaryRow := data.getD r0 []
  let secondaryRow := data.getD r1 []
  let maxCols := max (lastNonEmptyLen primaryRow) (lastNonEmptyLen secondaryRow)
  let secondaryNonEmptyCount := (secondaryRow.filter cellNonEmpty).length
  let sikbomCount := (secondaryRow.filter (fun c =>
    strHasSub (cellRaw c) "과세" || strHasSub (cellRaw c) "면세" ||
      strHasSub (cellRaw c) "VAT")).length
  decide (10 * secondaryNonEmptyCount ≥ 6 * maxCols) && decide (2 * sikbomCount < maxCols)

/-- First primary-header-map pass of the complex branch
(ExcelService.ts:370-397). -/
def primaryMapPass1 (p s : List Cell) (maxCols : Nat) : List String :=
  (List.range maxCols).foldl (fun map col =>
    let ph := cellStr (p.getD col none)
    if ph ≠ "" then
      let map₁ := map.set col ph
      let curSec := cellStr (s.getD col none)
      if col + 1 < maxCols ∧ strHasSub curSec "과세" = true then
        let nph := cellStr (p.getD (col + 1) none)
        let nsh := cellStr (s.getD (col + 1) none)
        if nph = "" ∧ strHasSub nsh "면세" = true then map₁.set (col + 1) ph else map₁
      else map₁
    else map) (List.replicate maxCols "")

/-- Corrective rebuild of the primary header map, triggered when the first
pass produced an implausible number of date-column mappings
(ExcelService.ts:401-439). -/
def primaryMapPass2 (p s : List Cell) (maxCols : Nat) : List String :=
  ((List.range maxCols).foldl (fun (st : List String × List Nat) col =>
    if col ∈ st.2 then st
    else
      let ph := cellStr (p.getD col none)
      if ph ≠ "" then
        let map₁ := st.1.set col ph
        let proc₁ := col :: st.2
        if col + 1 < maxCols then
          let nsh := cellStr (s.getD (col + 1) none)
          if strHasSub nsh "면세" = true then (map₁.set (col + 1) ph, (col + 1) :: proc₁)
          else (map₁, proc₁)
        else (map₁, proc₁)
      else st) (List.replicate maxCols "", [])).1

/-- The primary header map actually used: pass 1, unless its date-column
fix-up trigger fires, in which case the rebuilt map of pass 2. -/
def primaryMapOf (p s : List Cell) (maxCols : Nat) : List String :=
  let map1 := primaryMapPass1 p s maxCols
  let dateCount := (map1.filter (fun h => h == "정산완료일(일별)")).length
  if dateCount > 3 then primaryMapPass2 p s maxCols else map1

/-- Per-column combined names of the complex branch, before duplicate removal
(ExcelService.ts:442-469). -/
def combineRawNames (map : List String) (s : List Cell) (maxCols : Nat) : List String :=
  (List.range maxCols).foldl (fun acc col =>
    let ph := map.getD col ""
    let sh := cellStr (s.getD col none)
    if ph = "" ∧ sh = "" then acc
    else
      let final := if ph ≠ "" ∧ sh ≠ "" then ph ++ " > " ++ sh
        else if ph ≠ "" then ph else sh
      if final ≠ "" then acc ++ [final] else acc) []

/-- The duplicate-removal loop with its `seen` set
(ExcelService.ts:472-482): keep the first occurrence of each name. -/
def dedupFirst (l : List String) : List String :=
  l.foldl (fun acc h => if h ∈ acc then acc else acc ++ [h]) []

/-- The pre-dedup combined name list of the complex branch for header rows
`r0, r1` of `data`. -/
def rawCombinedNames (data : Grid) (r0 r1 : Nat) : List String :=
  let primaryRow := data.getD r0 []
  let secondaryRow := data.getD r1 []
  let maxCols := max (lastNonEmptyLen primaryRow) (lastNonEmptyLen secondaryRow)
  combineRawNames (primaryMapOf primaryRow secondaryRow maxCols) secondaryRow maxCols

/-- Embedding of `ExcelService.combineMultiRowHeaders`
(ExcelService.ts:295-486). -/
def combineMultiRowHeaders (data : Grid) (headerRows : List Nat) : List String :=
  match headerRows with
  | [] => []
  | [r0] => simpleHeaders (data.getD r0 [])
  | r0 :: r1 :: _ =>
    let primaryRow := data.getD r0 []
    let secondaryRow := data.getD r1 []
    if isSimpleStructureB data r0 r1 then
      let secondaryNonEmptyCount := (secondaryRow.filter cellNonEmpty).length
      let primaryNonEmptyCount := (primaryRow.filter cellNonEmpty).length
      if secondaryNonEmptyCount > primaryNonEmptyCount then simpleHeaders secondaryRow
      else simpleHeaders primaryRow
    else dedupFirst (rawCombinedNames data r0 r1)

theorem dedupAux_nodup :
    ∀ (l acc : List String), acc.Nodup →
      (l.foldl (fun acc h => if h ∈ acc then acc else acc ++ [h]) acc).Nodup := by
  intro l
  induction l with
  | nil => intro acc h; exact h
  | cons h rest ih =>
    intro acc hacc
    simp only [List.foldl_cons]
    by_cases hm : h ∈ acc
    · rw [if_pos hm]; exact ih acc hacc
    · rw [if_neg hm]
      refine ih (acc ++ [h]) ?_
      simp [List.nodup_append, hacc, hm]

theorem dedupAux_mem :
    ∀ (l acc : List String) (x : String),
      x ∈ l.foldl (fun acc h => if h ∈ acc then acc else acc ++ [h]) acc ↔
        x ∈ acc ∨ x ∈ l := by
  intro l
  induction l with
  | nil => intro acc x; simp
  | cons h rest ih =>
    intro acc x
    simp only [List.foldl_cons]
    by_cases hm : h ∈ acc
    · rw [if_pos hm, ih acc x]
      constructor
      · rintro (hx | hx)
        · exact Or.inl hx
        · exact Or.inr (List.mem_cons_of_mem h hx)
      · rintro (hx | hx)
        · exact Or.inl hx
        · rcases List.mem_cons.mp hx with hx | hx
          · subst hx; exact Or.inl hm
          · exact Or.inr hx
    · rw [if_neg hm, ih (acc ++ [h]) x]
      simp [List.mem_append, List.mem_cons, or_assoc]

theorem dedupAux_sublist :
    ∀ (l acc : List String),
      (l.foldl (fun acc h => if h ∈ acc then acc else acc ++ [h]) acc).Sublist (acc ++ l) := by
  intro l
  induction l with
  | nil => intro acc; simp
  | cons h rest ih =>
    intro acc
    simp only [List.foldl_cons]
    by_cases hm : h ∈ acc
    · rw [if_pos hm]
      refine (ih acc).trans ?_
      exact List.Sublist.append_left (List.sublist_cons_self h rest) acc
    · rw [if_neg hm]
      have := ih (acc ++ [h])
      rwa [List.append_assoc, List.singleton_append] at this

theorem dedupFirst_nodup (l : List String) : (dedupFirst l).Nodup :=
  dedupAux_nodup l [] List.nodup_nil

theorem dedupFirst_mem (l : List String) (x : String) : x ∈ dedupFirst l ↔ x ∈ l := by
  rw [dedupFirst, dedupAux_mem l [] x]
  simp

theorem dedupFirst_sublist (l : List String) : (dedupFirst l).Sublist l := by
  have := dedupAux_sublist l []
  simpa [dedupFirst] using this

/-- Claim C3 as stated is false: on a single duplicated header row the
single-row path returns the row's names verbatim, duplicates included. -/
theorem claim_C3_counterexample :
    combineMultiRowHeaders [[some "a", some "a"]] [0] = ["a", "a"] ∧
    ¬ (combineMultiRowHeaders [[some "a", some "a"]] [0]).Nodup := by
  constructor
  · decide
  · decide

/-- Claim C3, amended: on the complex merged-header branch (two header rows
with the simple-structure heuristic false) `combineMultiRowHeaders` returns a
duplicate-free list that is a sublist of the per-column combined names in
their left-to-right order, containing exactly the names that occur there —
i.e. duplicates are dropped with the first occurrence winning.  The
single-row and simple-structure paths return the trimmed non-empty cells of
the chosen row verbatim and may contain duplicates. -/
theorem claim_C3_amended (data : Grid) (r0 r1 : Nat) (rest : List Nat)
    (hns : isSimpleStructureB data r0 r1 = false) :
    (combineMultiRowHeaders data (r0 :: r1 :: rest)).Nodup ∧
    (combineMultiRowHeaders data (r0 :: r1 :: rest)).Sublist
      (rawCombinedNames data r0 r1) ∧
    (∀ x, x ∈ combineMultiRowHeaders data (r0 :: r1 :: rest) ↔
      x ∈ rawCombinedNames data r0 r1) := by
  have hcomb : combineMultiRowHeaders data (r0 :: r1 :: rest) =
      dedupFirst (rawCombinedNames data r0 r1) := by
    unfold combineMultiRowHeaders
    simp [hns]
  rw [hcomb]
  exact ⟨dedupFirst_nodup _, dedupFirst_sublist _, fun x => dedupFirst_mem _ x⟩

/-- Witness for the amended C3 on a concrete two-row merged header. -/
theorem claim_C3_witness :
    isSimpleStructureB [[some "A", none], [some "과세", some "면세"]] 0 1 = false ∧
    ((combineMultiRowHeaders [[some "A", none], [some "과세", some "면세"]] [0, 1]).Nodup ∧
     (combineMultiRowHeaders [[some "A", none], [some "과세", some "면세"]] [0, 1]).Sublist
       (rawCombinedNames [[some "A", none], [some "과세", some "면세"]] 0 1) ∧
     (∀ x, x ∈ combineMultiRowHeaders [[some "A", none], [some "과세", some "면세"]] [0, 1] ↔
       x ∈ rawCombinedNames [[some "A", none], [some "과세", some "면세"]] 0 1)) :=
  ⟨by decide,
    claim_C3_amended [[some "A", none], [some "과세", some "면세"]] 0 1 [] (by decide)⟩

/-! ### Row Extractor: tax-type classification (`parseMonthlyDataWithTaxType`) -/

/-- Model of JS `s.trim()`. -/
def jsTrim (s : String) : String := ⟨trimJsWs s.data⟩

/-- ASCII lower-casing, the model of JS `toLowerCase()` for the ASCII/Korean
strings this code handles (Hangul has no case). -/
def lowerStr (s : String) : String :=
  ⟨s.data.map (fun c => if 'A' ≤ c && c ≤ 'Z' then Char.ofNat (c.toNat + 32) else c)⟩

/-- Decimal digits of a natural number, fuel-based so that it reduces by
iota in the kernel (`fuel` strictly exceeding `n` is always enough). -/
def natCharsAux : Nat → Nat → List Char
  | 0, _ => []
  | fuel + 1, n =>
    if n < 10 then [Char.ofNat (48 + n)]
    else natCharsAux fuel (n / 10) ++ [Char.ofNat (48 + n % 10)]

/-- Decimal digits of a natural number. -/
def natChars (n : Nat) : List Char := natCharsAux (n + 1) n

/-- Decimal digits of an integer (model of JS number→string for integers). -/
def intToChars (i : Int) : List Char :=
  if i < 0 then '-' :: natChars i.natAbs else natChars i.natAbs

/-- Model of JS number→string.  Integers print exactly; for non-integral
rationals (which exact ℚ replaces the binary doubles of JS by) a `num/den`
form stands in for JS's decimal rendering — every claim proved below holds
for arbitrary strings, so this rendering choice is immaterial. -/
def numToStr (q : ℚ) : String :=
  if q.den = 1 then ⟨intToChars q.num⟩
  else ⟨intToChars q.num ++ '/' :: natChars q.den⟩

/-- Model of `String(x || '')` for a typed cell value. -/
def cellToJsStr : CellV → String
  | .null => ""
  | .str s => s
  | .num q => if q = 0 then "" else numToStr q

/-- Source record type (`types/index.ts`): one per-month data point. -/
structure MonthlyData where
  month : Int
  year : Int
  taxExemptAmount : ℚ
  taxableAmount : ℚ
  deriving DecidableEq, Repr

/-- A data row as the engine sees it: named fields holding typed cell values
(a JS object; keys unique, insertion-ordered). -/
abbrev Row := List (String × CellV)

/-- Model of `row[key]`: a missing property is `undefined`. -/
def getField (row : Row) (key : String) : CellV :=
  (List.lookup key row).getD .null

/-- Model of `a || b` for strings (an unset option is the empty string). -/
def jsOrStr (a b : String) : String := if a = "" then b else a

/-- Embedding of `ProcessingOptions` (`types/index.ts`).  Unset string options
are `""` (falsy exactly like `undefined` in every use the source makes);
`taxExemptValues`/`taxableValues` keep the `undefined` / present distinction
because an empty array is truthy in `options.taxExemptValues || defaults`. -/
structure ProcessingOptions where
  dateColumn : String := ""
  taxExemptColumn : String := ""
  taxableColumn : String := ""
  useTaxTypeClassification : Bool := false
  taxTypeColumn : String := ""
  amountColumn : String := ""
  taxExemptValues : Option (List String) := none
  taxableValues : Option (List String) := none
  useMultiColumnSum : Bool := false
  amountColumns : List String := []

/-- The summary-row token list of `isSummaryRow` (ExcelService.ts:1014-1023). -/
def summaryPatterns : List String :=
  ["합계", "총계", "계", "소계", "총합", "total", "sum", "subtotal"]

/-- Embedding of `ExcelService.isSummaryRow` (ExcelService.ts:1006-1028). -/
def isSummaryRow (v : CellV) : Bool :=
  match v with
  | .null => false
  | .str s =>
    if s = "" then false
    else summaryPatterns.any (fun pat => strHasSub (lowerStr (jsTrim s)) (lowerStr pat))
  | .num q =>
    summaryPatterns.any (fun pat => strHasSub (lowerStr (jsTrim (numToStr q))) (lowerStr pat))

/-- Default keyword lists of `parseMonthlyDataWithTaxType`
(ExcelService.ts:536-537). -/
def defaultTaxExemptValues : List String := ["면세", "면세상품", "0%", "영세율", "FREE"]

def defaultTaxableValues : List String := ["과세", "과세상품", "10%", "부가세", "TAX"]

/-- One keyword match: case-insensitive substring, or exact equality
(ExcelService.ts:597-605). -/
def matchesTaxValue (taxType v : String) : Bool :=
  strHasSub (lowerStr taxType) (lowerStr v) || taxType == v

/-- `values.some(val => ...)` over a keyword list. -/
def matchesTaxList (vals : List String) (taxType : String) : Bool :=
  vals.any (matchesTaxValue taxType)

/-- A row's amount (ExcelService.ts:564-578): the sum of the configured
amount columns in multi-column mode (absent/unparsable parts parse to `0`),
else the single amount column.  `parseAmount` is total, so the source's
`isNaN` guard is vacuous in the model. -/
def rowAmount (opts : ProcessingOptions) (row : Row) : ℚ :=
  if opts.useMultiColumnSum ∧ opts.amountColumns ≠ [] then
    opts.amountColumns.foldl (fun sum c => sum + parseAmount (getField row c)) 0
  else parseAmount (getField row (jsOrStr opts.amountColumn "금액"))

/-- A per-(year,month) accumulation bucket (`groupedByDate` map values). -/
structure TaxEntry where
  date : SimpleDate
  taxExempt : ℚ
  taxable : ℚ
  deriving DecidableEq, Repr

/-- The bucket key ``​`${date.getFullYear()}-${date.getMonth() + 1}`​``. -/
def ymKey (d : SimpleDate) : String := ⟨intToChars d.year ++ '-' :: intToChars d.month⟩

/-- `if (!groupedByDate.has(key)) groupedByDate.set(key, {date, 0, 0})`:
insertion-ordered map, new keys appended at the end. -/
def bucketUpsert (s : List (String × TaxEntry)) (key : String) (d : SimpleDate) :
    List (String × TaxEntry) :=
  if s.any (fun kv => kv.1 == key) then s else s ++ [(key, ⟨d, 0, 0⟩)]

/-- In-place mutation of the entry stored under `key`. -/
def bucketUpdate (s : List (String × TaxEntry)) (key : String) (f : TaxEntry → TaxEntry) :
    List (String × TaxEntry) :=
  s.map (fun kv => if kv.1 == key then (kv.1, f kv.2) else kv)

/-- `row[dateCol]` with `dateCol = options.dateColumn || '날짜'`. -/
def rowDateValue (opts : ProcessingOptions) (row : Row) : CellV :=
  getField row (jsOrStr opts.dateColumn "날짜")

/-- `String(row[taxTypeCol] || '').trim()`. -/
def rowTaxType (opts : ProcessingOptions) (row : Row) : String :=
  jsTrim (cellToJsStr (getField row (jsOrStr opts.taxTypeColumn "과세유형")))

/-- `options.taxExemptValues || [...defaults]`. -/
def exemptValsOf (opts : ProcessingOptions) : List String :=
  opts.taxExemptValues.getD defaultTaxExemptValues

/-- `options.taxableValues || [...defaults]`. -/
def taxableValsOf (opts : ProcessingOptions) : List String :=
  opts.taxableValues.getD defaultTaxableValues

/-- Embedding of the `rawData.forEach` body of
`ExcelService.parseMonthlyDataWithTaxType` (ExcelService.ts:546-617) as a step
function on the accumulation map.  The date parser `pd` (the `parseDate`
method call) is a parameter of the embedding. -/
def taxTypeStep (opts : ProcessingOptions) (pd : CellV → Option SimpleDate)
    (s : List (String × TaxEntry)) (row : Row) : List (String × TaxEntry) :=
  if isSummaryRow (rowDateValue opts row) then s
  else
    match pd (rowDateValue opts row) with
    | none => s
    | some date =>
      let taxType := rowTaxType opts row
      let amount := rowAmount opts row
      if amount = 0 then s
      else
        let key := ymKey date
        let s₁ := bucketUpsert s key date
        if matchesTaxList (exemptValsOf opts) taxType then
          bucketUpdate s₁ key (fun e => { e with taxExempt := e.taxExempt + amount })
        else if matchesTaxList (taxableValsOf opts) taxType then
          bucketUpdate s₁ key (fun e => { e with taxable := e.taxable + amount })
        else
          bucketUpdate s₁ key (fun e => { e with taxable := e.taxable + amount })

/-- Embedding of `ExcelService.parseMonthlyDataWithTaxType`
(ExcelService.ts:531-626). -/
def parseMonthlyDataWithTaxType (opts : ProcessingOptions)
    (pd : CellV → Option SimpleDate) (rows : List Row) : List MonthlyData :=
  (rows.foldl (taxTypeStep opts pd) []).map (fun kv =>
    { month := kv.2.date.month, year := kv.2.date.year,
      taxExemptAmount := kv.2.taxExempt, taxableAmount := kv.2.taxable })

/-- Net effect of one accumulated row on the bucket map: add `a` to the
tax-exempt and `b` to the taxable sum of bucket `key`, creating the bucket
(at the end, with this row's date) if absent. -/
def bucketAdd (s : List (String × TaxEntry)) (key : String) (d : SimpleDate) (a b : ℚ) :
    List (String × TaxEntry) :=
  if s.any (fun kv => kv.1 == key) then
    bucketUpdate s key (fun e => ⟨e.date, e.taxExempt + a, e.taxable + b⟩)
  else s ++ [(key, ⟨d, a, b⟩)]

theorem bucketUpdate_of_absent {s : List (String × TaxEntry)} {key : String}
    {f : TaxEntry → TaxEntry} (h : s.any (fun kv => kv.1 == key) = false) :
    bucketUpdate s key f = s := by
  induction s with
  | nil => rfl
  | cons kv rest ih =>
    simp only [List.any_cons, Bool.or_eq_false_iff] at h
    unfold bucketUpdate
    simp only [List.map_cons]
    rw [if_neg (by rw [h.1]; exact Bool.false_ne_true)]
    congr 1
    exact ih h.2

theorem taxTypeStep_skip_summary (opts : ProcessingOptions)
    (pd : CellV → Option SimpleDate) (s : List (String × TaxEntry)) (row : Row)
    (h : isSummaryRow (rowDateValue opts row) = true) :
    taxTypeStep opts pd s row = s := by
  unfold taxTypeStep
  rw [if_pos h]

theorem taxTypeStep_skip_nodate (opts : ProcessingOptions)
    (pd : CellV → Option SimpleDate) (s : List (String × TaxEntry)) (row : Row)
    (h1 : isSummaryRow (rowDateValue opts row) = false)
    (h2 : pd (rowDateValue opts row) = none) :
    taxTypeStep opts pd s row = s := by
  unfold taxTypeStep
  rw [if_neg (by rw [h1]; exact Bool.false_ne_true), h2]

theorem taxTypeStep_skip_zero (opts : ProcessingOptions)
    (pd : CellV → Option SimpleDate) (s : List (String × TaxEntry)) (row : Row)
    (d : SimpleDate)
    (h1 : isSummaryRow (rowDateValue opts row) = false)
    (h2 : pd (rowDateValue opts row) = some d)
    (h3 : rowAmount opts row = 0) :
    taxTypeStep opts pd s row = s := by
  unfold taxTypeStep
  rw [if_neg (by rw [h1]; exact Bool.false_ne_true), h2]
  simp only [if_pos h3]

theorem bucketUpdate_append_single (s : List (String × TaxEntry)) (key : String)
    (e : TaxEntry) (f : TaxEntry → TaxEntry)
    (h : s.any (fun kv => kv.1 == key) = false) :
    bucketUpdate (s ++ [(key, e)]) key f = s ++ [(key, f e)] := by
  unfold bucketUpdate
  rw [List.map_append]
  congr 1
  · exact bucketUpdate_of_absent h
  · simp

theorem taxTypeStep_exempt (opts : ProcessingOptions)
    (pd : CellV → Option SimpleDate) (s : List (String × TaxEntry)) (row : Row)
    (d : SimpleDate)
    (h1 : isSummaryRow (rowDateValue opts row) = false)
    (h2 : pd (rowDateValue opts row) = some d)
    (h3 : rowAmount opts row ≠ 0)
    (hex : matchesTaxList (exemptValsOf opts) (rowTaxType opts row) = true) :
    taxTypeStep opts pd s row = bucketAdd s (ymKey d) d (rowAmount opts row) 0 := by
  unfold taxTypeStep
  rw [if_neg (by rw [h1]; exact Bool.false_ne_true), h2]
  dsimp only
  rw [if_neg h3, if_pos hex]
  by_cases hpres : (s.any fun kv => kv.1 == ymKey d) = true
  · unfold bucketUpsert bucketAdd
    rw [if_pos hpres, if_pos hpres]
    unfold bucketUpdate
    apply List.map_congr_left
    intro kv _
    by_cases hk : (kv.1 == ymKey d) = true
    · rw [if_pos hk, if_pos hk]
      show (kv.1, (⟨kv.2.date, kv.2.taxExempt + rowAmount opts row, kv.2.taxable⟩ : TaxEntry)) =
        (kv.1, (⟨kv.2.date, kv.2.taxExempt + rowAmount opts row, kv.2.taxable + 0⟩ : TaxEntry))
      simp
    · rw [if_neg hk, if_neg hk]
  · unfold bucketUpsert bucketAdd
    rw [if_neg hpres, if_neg hpres]
    have hpres' : (s.any fun kv => kv.1 == ymKey d) = false := by
      revert hpres; cases s.any fun kv => kv.1 == ymKey d <;> simp
    rw [bucketUpdate_append_single s (ymKey d) ⟨d, 0, 0⟩ _ hpres']
    simp

theorem taxTypeStep_taxable (opts : ProcessingOptions)
    (pd : CellV → Option SimpleDate) (s : List (String × TaxEntry)) (row : Row)
    (d : SimpleDate)
    (h1 : isSummaryRow (rowDateValue opts row) = false)
    (h2 : pd (rowDateValue opts row) = some d)
    (h3 : rowAmount opts row ≠ 0)
    (hex : matchesTaxList (exemptValsOf opts) (rowTaxType opts row) = false) :
    taxTypeStep opts pd s row = bucketAdd s (ymKey d) d 0 (rowAmount opts row) := by
  unfold taxTypeStep
  rw [if_neg (by rw [h1]; exact Bool.false_ne_true), h2]
  dsimp only
  rw [if_neg h3, if_neg (by rw [hex]; exact Bool.false_ne_true), ite_self]
  by_cases hpres : (s.any fun kv => kv.1 == ymKey d) = true
  · unfold bucketUpsert bucketAdd
    rw [if_pos hpres, if_pos hpres]
    unfold bucketUpdate
    apply List.map_congr_left
    intro kv _
    by_cases hk : (kv.1 == ymKey d) = true
    · rw [if_pos hk, if_pos hk]
      show (kv.1, (⟨kv.2.date, kv.2.taxExempt, kv.2.taxable + rowAmount opts row⟩ : TaxEntry)) =
        (kv.1, (⟨kv.2.date, kv.2.taxExempt + 0, kv.2.taxable + rowAmount opts row⟩ : TaxEntry))
      simp
    · rw [if_neg hk, if_neg hk]
  · unfold bucketUpsert bucketAdd
    rw [if_neg hpres, if_neg hpres]
    have hpres' : (s.any fun kv => kv.1 == ymKey d) = false := by
      revert hpres; cases s.any fun kv => kv.1 == ymKey d <;> simp
    rw [bucketUpdate_append_single s (ymKey d) ⟨d, 0, 0⟩ _ hpres']
    simp

/-- Claim C5: in tax-type classification mode, a data row is skipped (state
unchanged) when its date cell is a summary marker, fails to parse, or its
amount is zero/unparsable (`parseAmount` maps unparsable to `0`); otherwise
its amount is accumulated into the per-(year,month) tax-exempt bucket when
the tax-type value matches a configured tax-exempt keyword (case-insensitive
substring or equality), into the taxable bucket when it matches only a
taxable keyword, and into the taxable bucket — never dropped — when it
matches neither.  `pd` is the date parser the method calls. -/
theorem claim_C5 (opts : ProcessingOptions) (pd : CellV → Option SimpleDate)
    (s : List (String × TaxEntry)) (row : Row) :
    (isSummaryRow (rowDateValue opts row) = true → taxTypeStep opts pd s row = s) ∧
    (isSummaryRow (rowDateValue opts row) = false →
      pd (rowDateValue opts row) = none → taxTypeStep opts pd s row = s) ∧
    (∀ d, isSummaryRow (rowDateValue opts row) = false →
      pd (rowDateValue opts row) = some d → rowAmount opts row = 0 →
      taxTypeStep opts pd s row = s) ∧
    (∀ d, isSummaryRow (rowDateValue opts row) = false →
      pd (rowDateValue opts row) = some d → rowAmount opts row ≠ 0 →
      matchesTaxList (exemptValsOf opts) (rowTaxType opts row) = true →
      taxTypeStep opts pd s row = bucketAdd s (ymKey d) d (rowAmount opts row) 0) ∧
    (∀ d, isSummaryRow (rowDateValue opts row) = false →
      pd (rowDateValue opts row) = some d → rowAmount opts row ≠ 0 →
      matchesTaxList (exemptValsOf opts) (rowTaxType opts row) = false →
      matchesTaxList (taxableValsOf opts) (rowTaxType opts row) = true →
      taxTypeStep opts pd s row = bucketAdd s (ymKey d) d 0 (rowAmount opts row)) ∧
    (∀ d, isSummaryRow (rowDateValue opts row) = false →
      pd (rowDateValue opts row) = some d → rowAmount opts row ≠ 0 →
      matchesTaxList (exemptValsOf opts) (rowTaxType opts row) = false →
      matchesTaxList (taxableValsOf opts) (rowTaxType opts row) = false →
      taxTypeStep opts pd s row = bucketAdd s (ymKey d) d 0 (rowAmount opts row)) := by
  refine ⟨?_, ?_, ?_, ?_, ?_, ?_⟩
  · exact fun h => taxTypeStep_skip_summary opts pd s row h
  · exact fun h1 h2 => taxTypeStep_skip_nodate opts pd s row h1 h2
  · exact fun d h1 h2 h3 => taxTypeStep_skip_zero opts pd s row d h1 h2 h3
  · exact fun d h1 h2 h3 hex => taxTypeStep_exempt opts pd s row d h1 h2 h3 hex
  · exact fun d h1 h2 h3 hex _ => taxTypeStep_taxable opts pd s row d h1 h2 h3 hex
  · exact fun d h1 h2 h3 hex _ => taxTypeStep_taxable opts pd s row d h1 h2 h3 hex

/-- Witness for C5: a concrete unrecognized-type row ("기타") with a parsed
date and amount `7` is accumulated into the taxable bucket, not dropped. -/
theorem claim_C5_witness :
    isSummaryRow (rowDateValue
      { dateColumn := "date", taxTypeColumn := "type", amountColumn := "amt",
        useTaxTypeClassification := true }
      [("date", .str "2024-01-15"), ("type", .str "기타"), ("amt", .num 7)]) = false ∧
    taxTypeStep
      { dateColumn := "date", taxTypeColumn := "type", amountColumn := "amt",
        useTaxTypeClassification := true }
      (fun v => if v = .str "2024-01-15" then some ⟨2024, 1, 15⟩ else none)
      []
      [("date", .str "2024-01-15"), ("type", .str "기타"), ("amt", .num 7)] =
      bucketAdd [] (ymKey ⟨2024, 1, 15⟩) ⟨2024, 1, 15⟩ 0 7 := by
  refine ⟨by decide, ?_⟩
  have h := (claim_C5
    { dateColumn := "date", taxTypeColumn := "type", amountColumn := "amt",
      useTaxTypeClassification := true }
    (fun v => if v = .str "2024-01-15" then some ⟨2024, 1, 15⟩ else none)
    []
    [("date", .str "2024-01-15"), ("type", .str "기타"), ("amt", .num 7)]).2.2.2.2.2
    ⟨2024, 1, 15⟩ (by decide) (by decide) (by decide) (by decide) (by decide)
  exact h.trans (by decide)

/-- Claim C10: in tax-type classification mode, a row whose tax-type value
matches both the configured tax-exempt and the configured taxable keyword
lists is accumulated into the tax-exempt bucket — the tax-exempt list is
tested first and takes precedence. -/
theorem claim_C10 (opts : ProcessingOptions) (pd : CellV → Option SimpleDate)
    (s : List (String × TaxEntry)) (row : Row) (d : SimpleDate)
    (h1 : isSummaryRow (rowDateValue opts row) = false)
    (h2 : pd (rowDateValue opts row) = some d)
    (h3 : rowAmount opts row ≠ 0)
    (hex : matchesTaxList (exemptValsOf opts) (rowTaxType opts row) = true)
    (htx : matchesTaxList (taxableValsOf opts) (rowTaxType opts row) = true) :
    taxTypeStep opts pd s row = bucketAdd s (ymKey d) d (rowAmount opts row) 0 :=
  taxTypeStep_exempt opts pd s row d h1 h2 h3 hex

/-- Witness for C10: the type value "면세과세" matches both keyword lists and
its amount lands in the tax-exempt bucket. -/
theorem claim_C10_witness :
    matchesTaxList (exemptValsOf
      { dateColumn := "date", taxTypeColumn := "type", amountColumn := "amt",
        useTaxTypeClassification := true })
      (rowTaxType
        { dateColumn := "date", taxTypeColumn := "type", amountColumn := "amt",
          useTaxTypeClassification := true }
        [("date", .str "2024-01-15"), ("type", .str "면세과세"), ("amt", .num 9)]) = true ∧
    matchesTaxList (taxableValsOf
      { dateColumn := "date", taxTypeColumn := "type", amountColumn := "amt",
        useTaxTypeClassification := true })
      (rowTaxType
        { dateColumn := "date", taxTypeColumn := "type", amountColumn := "amt",
          useTaxTypeClassification := true }
        [("date", .str "2024-01-15"), ("type", .str "면세과세"), ("amt", .num 9)]) = true ∧
    taxTypeStep
      { dateColumn := "date", taxTypeColumn := "type", amountColumn := "amt",
        useTaxTypeClassification := true }
      (fun v => if v = .str "2024-01-15" then some ⟨2024, 1, 15⟩ else none)
      []
      [("date", .str "2024-01-15"), ("type", .str "면세과세"), ("amt", .num 9)] =
      bucketAdd [] (ymKey ⟨2024, 1, 15⟩) ⟨2024, 1, 15⟩ 9 0 := by
  refine ⟨by decide, by decide, ?_⟩
  have h := claim_C10
    { dateColumn := "date", taxTypeColumn := "type", amountColumn := "amt",
      useTaxTypeClassification := true }
    (fun v => if v = .str "2024-01-15" then some ⟨2024, 1, 15⟩ else none)
    []
    [("date", .str "2024-01-15"), ("type", .str "면세과세"), ("amt", .num 9)]
    ⟨2024, 1, 15⟩ (by decide) (by decide) (by decide) (by decide) (by decide)
  exact h.trans (by decide)

/-! ### Flexible column matching and validation (`readExcelFile`) -/

/-- Single-space collapsing of whitespace runs (`replace(/\s+/g, ' ')`),
with a flag recording whether the previous character was whitespace. -/
def collapseWsAux : Bool → List Char → List Char
  | _, [] => []
  | prevWs, c :: cs =>
    if isJsWsChar c then
      if prevWs then collapseWsAux true cs else ' ' :: collapseWsAux true cs
    else c :: collapseWsAux false cs

/-- Embedding of the `normalizeHeader` helper (ExcelService.ts:152-158):
newlines → spaces, collapse whitespace runs, trim, lowercase. -/
def normalizeHeader (s : String) : String :=
  lowerStr ⟨trimJsWs (collapseWsAux false
    (s.data.map (fun c => if c == '\n' then ' ' else c)))⟩

/-- Embedding of `findMatchingColumn` (ExcelService.ts:161-192): exact match,
then normalized match, then the vendor (Sikbom) substring pattern. -/
def findMatchingColumn (cols : List String) (search : String) : Option String :=
  if search ∈ cols then some search
  else
    match cols.find? (fun col => normalizeHeader col == normalizeHeader search) with
    | some col => some col
    | none =>
      if strHasSub (normalizeHeader search) "확정 정산대상금액" &&
          strHasSub (normalizeHeader search) "면세" then
        cols.find? (fun col => strHasSub (normalizeHeader col) "확정 정산대상금액" &&
          strHasSub (normalizeHeader col) "면세")
      else none

/-- A single-quote character (avoids an apostrophe literal in source text). -/
def squote : String := ⟨[Char.ofNat 39]⟩

/-- One missing-column message item, e.g. `날짜 컬럼 '...'`. -/
def missingDesc (label name : String) : String := label ++ " " ++ squote ++ name ++ squote

/-- Model of `Array.prototype.join(sep)`. -/
def joinWith (sep : String) : List String → String
  | [] => ""
  | [x] => x
  | x :: xs => x ++ sep ++ joinWith sep xs

/-- The missing-column descriptors collected by `readExcelFile`
(ExcelService.ts:194-256), in source order. -/
def requiredMissing (opts : ProcessingOptions) (cols : List String) : List String :=
  (if (findMatchingColumn cols opts.dateColumn).isNone then
    [missingDesc "날짜 컬럼" opts.dateColumn] else []) ++
  (if opts.useTaxTypeClassification then
    (if (findMatchingColumn cols opts.taxTypeColumn).isNone then
      [missingDesc "과세유형 컬럼" opts.taxTypeColumn] else []) ++
    (if opts.useMultiColumnSum then
      (opts.amountColumns.filter (fun c => (findMatchingColumn cols c).isNone)).map
        (missingDesc "금액 컬럼")
    else if (findMatchingColumn cols opts.amountColumn).isNone then
      [missingDesc "금액 컬럼" opts.amountColumn] else [])
  else
    (if (findMatchingColumn cols opts.taxExemptColumn).isNone then
      [missingDesc "면세금액 컬럼" opts.taxExemptColumn] else []) ++
    (if (findMatchingColumn cols opts.taxableColumn).isNone then
      [missingDesc "과세금액 컬럼" opts.taxableColumn] else []))

/-- The column-name rewriting `readExcelFile` performs on a successful match
(flexible matches replace the configured names). -/
def applyMatches (opts : ProcessingOptions) (cols : List String) : ProcessingOptions :=
  if opts.useTaxTypeClassification then
    { opts with
      dateColumn := (findMatchingColumn cols opts.dateColumn).getD opts.dateColumn,
      taxTypeColumn := (findMatchingColumn cols opts.taxTypeColumn).getD opts.taxTypeColumn,
      amountColumn := if opts.useMultiColumnSum then opts.amountColumn
        else (findMatchingColumn cols opts.amountColumn).getD opts.amountColumn,
      amountColumns := if opts.useMultiColumnSum then
        opts.amountColumns.filterMap (findMatchingColumn cols) else opts.amountColumns }
  else
    { opts with
      dateColumn := (findMatchingColumn cols opts.dateColumn).getD opts.dateColumn,
      taxExemptColumn :=
        (findMatchingColumn cols opts.taxExemptColumn).getD opts.taxExemptColumn,
      taxableColumn := (findMatchingColumn cols opts.taxableColumn).getD opts.taxableColumn }

/-- Embedding of the validation and column-matching stage of
`ExcelService.readExcelFile` (ExcelService.ts:119-266), for a non-empty data
set whose first row exposes `cols` as the available column names.  The first
five guards are the eager per-field "unset" throws; the final stage collects
every unmatched configured column into one enumerated error. -/
def validateColumns (opts : ProcessingOptions) (cols : List String) :
    Except String ProcessingOptions :=
  if opts.dateColumn = "" then .error "날짜 컬럼이 지정되지 않았습니다."
  else if opts.useTaxTypeClassification ∧ opts.taxTypeColumn = "" then
    .error "과세유형 컬럼이 지정되어야 합니다."
  else if opts.useTaxTypeClassification ∧ opts.useMultiColumnSum ∧
      opts.amountColumns = [] then
    .error "다중 컬럼 합계 모드에서는 최소 하나의 금액 컬럼이 지정되어야 합니다."
  else if opts.useTaxTypeClassification ∧ ¬opts.useMultiColumnSum ∧
      opts.amountColumn = "" then
    .error "단일 컬럼 모드에서는 금액 컬럼이 지정되어야 합니다."
  else if ¬opts.useTaxTypeClassification ∧
      (opts.taxExemptColumn = "" ∨ opts.taxableColumn = "") then
    .error "면세금액 컬럼과 과세금액 컬럼이 모두 지정되어야 합니다."
  else
    let missing := requiredMissing opts cols
    if missing = [] then .ok (applyMatches opts cols)
    else .error ("다음 컬럼을 찾을 수 없습니다: " ++ joinWith ", " missing)

/-- The configured column names that are required for the active processing
mode (spec-side reading of the claim). -/
def requiredColumns (opts : ProcessingOptions) : List String :=
  [opts.dateColumn] ++
  (if opts.useTaxTypeClassification then
    [opts.taxTypeColumn] ++
    (if opts.useMultiColumnSum then opts.amountColumns else [opts.amountColumn])
  else [opts.taxExemptColumn, opts.taxableColumn])

/-- All required column options are set for the active mode. -/
def requiredSetB (opts : ProcessingOptions) : Bool :=
  opts.dateColumn ≠ "" &&
  (if opts.useTaxTypeClassification then
    opts.taxTypeColumn ≠ "" &&
    (if opts.useMultiColumnSum then opts.amountColumns ≠ ([] : List String)
     else opts.amountColumn ≠ "")
  else opts.taxExemptColumn ≠ "" && opts.taxableColumn ≠ "")

theorem strHasSub_append_right {s t : String} (h : strHasSub s t = true) (u : String) :
    strHasSub (s ++ u) t = true :=
  listHasSeq_append_right h u.data

theorem strHasSub_append_left {s t : String} (h : strHasSub s t = true) (u : String) :
    strHasSub (u ++ s) t = true :=
  listHasSeq_append_left h u.data

theorem strHasSub_missingDesc (label name : String) :
    strHasSub (missingDesc label name) name = true :=
  listHasSeq_sandwich name.data (label ++ " " ++ squote).data squote.data

theorem strHasSub_joinWith (sep : String) :
    ∀ (parts : List String) (x : String), x ∈ parts →
      ∀ t, strHasSub x t = true → strHasSub (joinWith sep parts) t = true := by
  intro parts
  induction parts with
  | nil => intro x hx; cases hx
  | cons p rest ih =>
    intro x hx t ht
    cases rest with
    | nil =>
      have hx' : x = p := List.mem_singleton.mp hx
      subst hx'
      simpa [joinWith] using ht
    | cons q qs =>
      rw [show joinWith sep (p :: q :: qs) = p ++ sep ++ joinWith sep (q :: qs) from rfl]
      rcases List.mem_cons.mp hx with hx' | hx'
      · subst hx'
        exact strHasSub_append_right (strHasSub_append_right ht sep) _
      · exact strHasSub_append_left (ih x hx' t ht) _

theorem requiredMissing_has_desc (opts : ProcessingOptions) (cols : List String)
    (c : String) (hc : c ∈ requiredColumns opts)
    (hnone : findMatchingColumn cols c = none) :
    ∃ desc ∈ requiredMissing opts cols, strHasSub desc c = true := by
  unfold requiredColumns at hc
  unfold requiredMissing
  by_cases htax : opts.useTaxTypeClassification
  · by_cases hmulti : opts.useMultiColumnSum
    · simp only [htax, hmulti, if_true] at hc
      simp only [List.mem_append, List.mem_cons, List.mem_singleton,
        List.not_mem_nil, or_false] at hc
      rcases hc with hc' | hc' | hmem
      · subst hc'
        refine ⟨missingDesc "날짜 컬럼" opts.dateColumn, ?_, strHasSub_missingDesc _ _⟩
        refine List.mem_append_left _ ?_
        simp [hnone]
      · subst hc'
        refine ⟨missingDesc "과세유형 컬럼" opts.taxTypeColumn, ?_, strHasSub_missingDesc _ _⟩
        simp only [htax, if_true]
        refine List.mem_append_right _ (List.mem_append_left _ ?_)
        simp [hnone]
      · refine ⟨missingDesc "금액 컬럼" c, ?_, strHasSub_missingDesc _ _⟩
        simp only [htax, hmulti, if_true]
        refine List.mem_append_right _ (List.mem_append_right _ ?_)
        exact List.mem_map_of_mem _ (List.mem_filter.mpr ⟨hmem, by simp [hnone]⟩)
    · rw [Bool.not_eq_true] at hmulti
      simp only [htax, hmulti, if_true, Bool.false_eq_true, if_false] at hc
      simp only [List.mem_append, List.mem_cons, List.mem_singleton,
        List.not_mem_nil, or_false] at hc
      rcases hc with hc' | hc' | hc'
      · subst hc'
        refine ⟨missingDesc "날짜 컬럼" opts.dateColumn, ?_, strHasSub_missingDesc _ _⟩
        refine List.mem_append_left _ ?_
        simp [hnone]
      · subst hc'
        refine ⟨missingDesc "과세유형 컬럼" opts.taxTypeColumn, ?_, strHasSub_missingDesc _ _⟩
        simp only [htax, if_true]
        refine List.mem_append_right _ (List.mem_append_left _ ?_)
        simp [hnone]
      · subst hc'
        refine ⟨missingDesc "금액 컬럼" opts.amountColumn, ?_, strHasSub_missingDesc _ _⟩
        simp only [htax, hmulti, if_true, Bool.false_eq_true, if_false]
        refine List.mem_append_right _ (List.mem_append_right _ ?_)
        simp [hnone]
  · rw [Bool.not_eq_true] at htax
    simp only [htax, Bool.false_eq_true, if_false] at hc
    simp only [List.mem_append, List.mem_cons, List.mem_singleton,
      List.not_mem_nil, or_false] at hc
    rcases hc with hc' | hc' | hc'
    · subst hc'
      refine ⟨missingDesc "날짜 컬럼" opts.dateColumn, ?_, strHasSub_missingDesc _ _⟩
      refine List.mem_append_left _ ?_
      simp [hnone]
    · subst hc'
      refine ⟨missingDesc "면세금액 컬럼" opts.taxExemptColumn, ?_, strHasSub_missingDesc _ _⟩
      simp only [htax, Bool.false_eq_true, if_false]
      refine List.mem_append_right _ (List.mem_append_left _ ?_)
      simp [hnone]
    · subst hc'
      refine ⟨missingDesc "과세금액 컬럼" opts.taxableColumn, ?_, strHasSub_missingDesc _ _⟩
      simp only [htax, Bool.false_eq_true, if_false]
      refine List.mem_append_right _ (List.mem_append_right _ ?_)
      simp [hnone]

/-- Claim C8 as stated is false: with two required columns unset (here the
date and the tax-type column in tax-type mode), `readExcelFile`'s validation
fails immediately on the first one with a single-field message that does not
enumerate — or even mention — the other missing column. -/
theorem claim_C8_counterexample :
    validateColumns { useTaxTypeClassification := true } ["날짜"] =
      Except.error "날짜 컬럼이 지정되지 않았습니다." ∧
    ({ useTaxTypeClassification := true } : ProcessingOptions).taxTypeColumn = "" ∧
    strHasSub "날짜 컬럼이 지정되지 않았습니다." "과세유형" = false :=
  ⟨rfl, rfl, by decide⟩

/-- Claim C8, amended: unset required options fail eagerly one at a time; the
enumerated one-shot error applies to the matching stage — whenever every
required column option is set but one or more of them remain unmatched after
the three strategies (exact, normalized, vendor-pattern), the read fails with
a single error whose message mentions every unmatched configured column. -/
theorem claim_C8_amended (opts : ProcessingOptions) (cols : List String)
    (hset : requiredSetB opts = true)
    (hmiss : ∃ c ∈ requiredColumns opts, findMatchingColumn cols c = none) :
    ∃ msg, validateColumns opts cols = Except.error msg ∧
      ∀ c ∈ requiredColumns opts, findMatchingColumn cols c = none →
        strHasSub msg c = true := by
  unfold requiredSetB at hset
  simp only [Bool.and_eq_true, decide_eq_true_eq] at hset
  have hdate : ¬ opts.dateColumn = "" := hset.1
  have hne : requiredMissing opts cols ≠ [] := by
    obtain ⟨c, hc, hnone⟩ := hmiss
    obtain ⟨desc, hdesc, _⟩ := requiredMissing_has_desc opts cols c hc hnone
    exact List.ne_nil_of_mem hdesc
  have hbody : validateColumns opts cols =
      Except.error ("다음 컬럼을 찾을 수 없습니다: " ++
        joinWith ", " (requiredMissing opts cols)) := by
    unfold validateColumns
    rw [if_neg hdate]
    by_cases htax : opts.useTaxTypeClassification
    · rw [htax] at hset
      simp only [if_true] at hset
      have htt : ¬ opts.taxTypeColumn = "" := by
        rcases hset with ⟨_, h2⟩
        simp only [Bool.and_eq_true, decide_eq_true_eq] at h2
        exact h2.1
      rw [if_neg (by rintro ⟨_, h⟩; exact htt h)]
      by_cases hmulti : opts.useMultiColumnSum
      · have hcols : ¬ opts.amountColumns = [] := by
          rcases hset with ⟨_, h2⟩
          simp only [Bool.and_eq_true, decide_eq_true_eq, hmulti, if_true] at h2
          exact h2.2
        rw [if_neg (by rintro ⟨_, _, h⟩; exact hcols h)]
        rw [if_neg (by rintro ⟨_, h, _⟩; rw [hmulti] at h; exact h rfl)]
        rw [if_neg (by rintro ⟨h, _⟩; exact h htax)]
        simp only [if_neg hne]
      · rw [Bool.not_eq_true] at hmulti
        have hamt : ¬ opts.amountColumn = "" := by
          rcases hset with ⟨_, h2⟩
          simp only [Bool.and_eq_true, decide_eq_true_eq, hmulti, Bool.false_eq_true,
            if_false] at h2
          exact h2.2
        rw [if_neg (by rintro ⟨_, h, _⟩; rw [hmulti] at h; exact Bool.false_ne_true h)]
        rw [if_neg (by rintro ⟨_, _, h⟩; exact hamt h)]
        rw [if_neg (by rintro ⟨h, _⟩; exact h htax)]
        simp only [if_neg hne]
    · rw [Bool.not_eq_true] at htax
      rw [htax] at hset
      simp only [Bool.false_eq_true, if_false, Bool.and_eq_true, decide_eq_true_eq] at hset
      rw [if_neg (by rintro ⟨h, _⟩; rw [htax] at h; exact Bool.false_ne_true h)]
      rw [if_neg (by rintro ⟨h, _⟩; rw [htax] at h; exact Bool.false_ne_true h)]
      rw [if_neg (by rintro ⟨h, _⟩; rw [htax] at h; exact Bool.false_ne_true h)]
      rw [if_neg (by rintro ⟨_, h | h⟩
                     · exact hset.2.1 h
                     · exact hset.2.2 h)]
      simp only [if_neg hne]
  refine ⟨_, hbody, ?_⟩
  intro c hc hnone
  obtain ⟨desc, hdesc, hsub⟩ := requiredMissing_has_desc opts cols c hc hnone
  exact strHasSub_append_left
    (strHasSub_joinWith ", " (requiredMissing opts cols) desc hdesc c hsub) _

/-- Concrete options for the C8 witness. -/
def optsC8W : ProcessingOptions :=
  { dateColumn := "날짜", taxTypeColumn := "유형", amountColumn := "금액",
    useTaxTypeClassification := true }

/-- Witness for the amended C8: date column matches, but the tax-type and
amount columns remain unmatched, and the single error message mentions both. -/
theorem claim_C8_witness :
    requiredSetB optsC8W = true ∧
    findMatchingColumn ["날짜"] "유형" = none ∧
    (∃ msg, validateColumns optsC8W ["날짜"] = Except.error msg ∧
      ∀ c ∈ requiredColumns optsC8W,
        findMatchingColumn ["날짜"] c = none → strHasSub msg c = true) :=
  ⟨by decide, by decide,
    claim_C8_amended optsC8W ["날짜"] (by decide) ⟨"유형", by decide, by decide⟩⟩

/-! ### Aggregator (`CalculationService.calculateTotals`) -/

/-- Source record type (`types/index.ts`): one mall's file worth of data. -/
structure ShoppingMallData where
  mallName : String
  filePath : String := ""
  data : List MonthlyData

/-- Source type `MonthlyTotal` (`types/index.ts`). -/
structure MonthlyTotal where
  month : Int
  year : Int
  taxExempt : ℚ
  taxable : ℚ
  total : ℚ
  deriving DecidableEq, Repr

/-- The `yearlyTotal` component of `CalculationResult`. -/
structure YearlyTotal where
  taxExempt : ℚ
  taxable : ℚ
  total : ℚ
  deriving DecidableEq, Repr

/-- Source type `CalculationResult` (`types/index.ts`). -/
structure CalculationResult where
  mallName : String
  monthlyTotals : List MonthlyTotal
  yearlyTotal : YearlyTotal
  deriving DecidableEq, Repr

/-- The grouping key ``​`${item.year}-${item.month}`​``. -/
def keyOfRecord (r : MonthlyData) : String :=
  ⟨intToChars r.year ++ '-' :: intToChars r.month⟩

/-- `if (!groups[key]) groups[key] = []; groups[key].push(item)` on a plain
object used as an insertion-ordered dictionary (the keys here are never array
indices, so JS preserves insertion order). -/
def addToGroups (gs : List (String × List MonthlyData)) (key : String)
    (item : MonthlyData) : List (String × List MonthlyData) :=
  match gs with
  | [] => [(key, [item])]
  | (k, l) :: rest =>
    if k == key then (k, l ++ [item]) :: rest
    else (k, l) :: addToGroups rest key item

/-- Embedding of `CalculationService.groupByYearMonth` (part_000:48-57). -/
def groupByYearMonth (data : List MonthlyData) : List (String × List MonthlyData) :=
  data.foldl (fun gs item => addToGroups gs (keyOfRecord item) item) []

/-- Model of `String.prototype.split('-')` on the character list. -/
def splitOnChar (sep : Char) (l : List Char) : List (List Char) :=
  l.foldr (fun c acc =>
    if c == sep then [] :: acc
    else match acc with
      | g :: gs => (c :: g) :: gs
      | [] => [[c]]) [[]]

/-- Model of `Number(part)` for the split pieces of a grouping key: these are
always decimal digit strings (or empty, which `Number` maps to `0`). -/
def keyNum (cs : List Char) : Int :=
  if cs.all Char.isDigit then (digitsToNat cs : Int) else 0

/-- `const [year, month] = yearMonth.split('-').map(Number)`. -/
def ymOfKey (key : String) : Int × Int :=
  let parts := splitOnChar '-' key.data
  (keyNum (parts.getD 0 []), keyNum (parts.getD 1 []))

/-- `items.reduce((sum, item) => sum + item.taxExemptAmount, 0)`. -/
def sumExempt (items : List MonthlyData) : ℚ :=
  items.foldl (fun a i => a + i.taxExemptAmount) 0

/-- `items.reduce((sum, item) => sum + item.taxableAmount, 0)`. -/
def sumTaxable (items : List MonthlyData) : ℚ :=
  items.foldl (fun a i => a + i.taxableAmount) 0

/-- One entry of `monthlyTotals`, built from one group. -/
def mkMonthlyTotal (g : String × List MonthlyData) : MonthlyTotal :=
  let ym := ymOfKey g.1
  let e := sumExempt g.2
  let t := sumTaxable g.2
  { year := ym.1, month := ym.2, taxExempt := e, taxable := t, total := e + t }

/-- The ascending (year, month) order of the final sort
(`(a, b) => a.year - b.year || a.month - b.month`). -/
def ymLE (a b : MonthlyTotal) : Prop :=
  a.year < b.year ∨ (a.year = b.year ∧ a.month ≤ b.month)

instance : DecidableRel ymLE := fun a b => by unfold ymLE; infer_instance

instance : IsTotal MonthlyTotal ymLE := ⟨by intro a b; unfold ymLE; omega⟩

instance : IsTrans MonthlyTotal ymLE := ⟨by intro a b c; unfold ymLE; omega⟩

/-- Embedding of `CalculationService.calculateTotals` (part_000:4-46).  The
final sort is modelled by insertion sort; the grouped entries have pairwise
distinct keys, for which any sort by this total order yields the same list as
the source's stable sort. -/
def calculateTotals (md : ShoppingMallData) : CalculationResult :=
  let groups := groupByYearMonth md.data
  let monthly := groups.map mkMonthlyTotal
  let yearlyE := monthly.foldl (fun a t => a + t.taxExempt) 0
  let yearlyT := monthly.foldl (fun a t => a + t.taxable) 0
  { mallName := md.mallName,
    monthlyTotals := List.insertionSort ymLE monthly,
    yearlyTotal := { taxExempt := yearlyE, taxable := yearlyT, total := yearlyE + yearlyT } }

theorem digitChar_isDigit (n : Nat) (h : n < 10) :
    (Char.ofNat (48 + n)).isDigit = true := by
  interval_cases n <;> decide

theorem digitChar_toNat (n : Nat) (h : n < 10) :
    (Char.ofNat (48 + n)).toNat = 48 + n := by
  interval_cases n <;> decide

theorem natCharsAux_digits :
    ∀ (fuel n : Nat), n < fuel → ∀ c ∈ natCharsAux fuel n, c.isDigit = true := by
  intro fuel
  induction fuel with
  | zero => intro n hn; omega
  | succ fuel ih =>
    intro n hn c hc
    rw [natCharsAux] at hc
    by_cases h10 : n < 10
    · rw [if_pos h10] at hc
      rcases List.mem_singleton.mp hc with rfl
      exact digitChar_isDigit n h10
    · rw [if_neg h10] at hc
      rcases List.mem_append.mp hc with hc | hc
      · exact ih (n / 10) (by omega) c hc
      · rcases List.mem_singleton.mp hc with rfl
        exact digitChar_isDigit (n % 10) (Nat.mod_lt n (by omega))

theorem digitsToNat_append_digit (a : List Char) (c : Char) :
    digitsToNat (a ++ [c]) = 10 * digitsToNat a + (c.toNat - 48) := by
  unfold digitsToNat
  rw [List.foldl_append]
  rfl

theorem digitsToNat_natCharsAux :
    ∀ (fuel n : Nat), n < fuel → digitsToNat (natCharsAux fuel n) = n := by
  intro fuel
  induction fuel with
  | zero => intro n hn; omega
  | succ fuel ih =>
    intro n hn
    rw [natCharsAux]
    by_cases h10 : n < 10
    · rw [if_pos h10]
      show digitsToNat [Char.ofNat (48 + n)] = n
      unfold digitsToNat
      simp only [List.foldl_cons, List.foldl_nil]
      have h1 := digitChar_toNat n h10
      simp only [Char.toNat] at h1 ⊢
      omega
    · rw [if_neg h10, digitsToNat_append_digit, ih (n / 10) (by omega)]
      have h1 := digitChar_toNat (n % 10) (Nat.mod_lt n (by omega))
      rw [h1]
      omega

theorem natChars_digits (n : Nat) : ∀ c ∈ natChars n, c.isDigit = true :=
  natCharsAux_digits (n + 1) n (by omega)

theorem digitsToNat_natChars (n : Nat) : digitsToNat (natChars n) = n :=
  digitsToNat_natCharsAux (n + 1) n (by omega)

theorem dash_not_mem_natChars (n : Nat) : '-' ∉ natChars n := by
  intro hmem
  have := natChars_digits n '-' hmem
  simp [Char.isDigit] at this

theorem splitOnChar_of_no_sep (sep : Char) :
    ∀ (a : List Char), sep ∉ a → splitOnChar sep a = [a] := by
  intro a
  induction a with
  | nil => intro _; rfl
  | cons c cs ih =>
    intro hmem
    have hc : ¬ c = sep := fun h => hmem (h ▸ List.mem_cons_self c cs)
    have hcs : sep ∉ cs := fun h => hmem (List.mem_cons_of_mem c h)
    unfold splitOnChar
    simp only [List.foldr_cons]
    rw [show List.foldr _ [[]] cs = splitOnChar sep cs from rfl, ih hcs]
    simp [hc]

theorem splitOnChar_append (sep : Char) :
    ∀ (a b : List Char), sep ∉ a →
      splitOnChar sep (a ++ sep :: b) = a :: splitOnChar sep b := by
  intro a
  induction a with
  | nil =>
    intro b _
    unfold splitOnChar
    simp
  | cons c cs ih =>
    intro b hmem
    have hc : ¬ c = sep := fun h => hmem (h ▸ List.mem_cons_self c cs)
    have hcs : sep ∉ cs := fun h => hmem (List.mem_cons_of_mem c h)
    have hih := ih b hcs
    unfold splitOnChar at hih ⊢
    simp only [List.cons_append, List.foldr_cons]
    rw [hih]
    simp [hc]

theorem intToChars_nonneg {i : Int} (h : 0 ≤ i) : intToChars i = natChars i.natAbs := by
  unfold intToChars
  rw [if_neg (by omega)]

theorem natChars_all_digits (n : Nat) : (natChars n).all Char.isDigit = true :=
  List.all_eq_true.mpr (natChars_digits n)

theorem ymOfKey_keyOfRecord (r : MonthlyData) (hy : 0 ≤ r.year) (hm : 0 ≤ r.month) :
    ymOfKey (keyOfRecord r) = (r.year, r.month) := by
  unfold ymOfKey keyOfRecord
  rw [intToChars_nonneg hy, intToChars_nonneg hm]
  have hsplit : splitOnChar '-'
      ((⟨natChars r.year.natAbs ++ '-' :: natChars r.month.natAbs⟩ : String).data) =
      [natChars r.year.natAbs, natChars r.month.natAbs] := by
    rw [show (⟨natChars r.year.natAbs ++ '-' :: natChars r.month.natAbs⟩ : String).data =
      natChars r.year.natAbs ++ '-' :: natChars r.month.natAbs from rfl]
    rw [splitOnChar_append '-' _ _ (dash_not_mem_natChars _)]
    rw [splitOnChar_of_no_sep '-' _ (dash_not_mem_natChars _)]
  rw [hsplit]
  show (keyNum (natChars r.year.natAbs), keyNum (natChars r.month.natAbs)) = _
  unfold keyNum
  rw [if_pos (natChars_all_digits _), if_pos (natChars_all_digits _)]
  rw [digitsToNat_natChars, digitsToNat_natChars]
  rw [Int.natAbs_of_nonneg hy, Int.natAbs_of_nonneg hm]

theorem keyOfRecord_eq_iff (r r' : MonthlyData) (hy : 0 ≤ r.year) (hm : 0 ≤ r.month)
    (hy' : 0 ≤ r'.year) (hm' : 0 ≤ r'.month) :
    keyOfRecord r = keyOfRecord r' ↔ (r.year = r'.year ∧ r.month = r'.month) := by
  constructor
  · intro h
    have h1 := ymOfKey_keyOfRecord r hy hm
    have h2 := ymOfKey_keyOfRecord r' hy' hm'
    rw [h] at h1
    rw [h2] at h1
    exact ⟨(Prod.mk.injEq .. ▸ h1.symm).1, (Prod.mk.injEq .. ▸ h1.symm).2⟩
  · rintro ⟨h1, h2⟩
    unfold keyOfRecord
    rw [h1, h2]

theorem find?_cons_pair (k₀ : String) (l₀ : List MonthlyData)
    (rest : List (String × List MonthlyData)) (k' : String) :
    ((k₀, l₀) :: rest).find? (fun g => g.1 == k') =
      if k₀ == k' then some (k₀, l₀) else rest.find? (fun g => g.1 == k') := by
  rw [List.find?_cons]
  cases h : (k₀ == k') <;> simp [h]

theorem find?_addToGroups (gs : List (String × List MonthlyData)) (k k' : String)
    (item : MonthlyData) :
    (addToGroups gs k item).find? (fun g => g.1 == k') =
      if k' = k then
        match gs.find? (fun g => g.1 == k) with
        | some g => some (g.1, g.2 ++ [item])
        | none => some (k, [item])
      else gs.find? (fun g => g.1 == k') := by
  induction gs with
  | nil =>
    by_cases hk : k' = k
    · subst hk
      simp [addToGroups, List.find?]
    · simp only [addToGroups, List.find?, if_neg hk]
      rw [show ((k, [item]).1 == k') = false from beq_eq_false_iff_ne.mpr (Ne.symm hk)]
  | cons g₀ rest ih =>
    obtain ⟨k₀, l₀⟩ := g₀
    by_cases h₀ : k₀ = k
    · subst h₀
      have hred : addToGroups ((k₀, l₀) :: rest) k₀ item = (k₀, l₀ ++ [item]) :: rest := by
        unfold addToGroups
        rw [if_pos (beq_iff_eq.mpr rfl)]
      rw [hred]
      by_cases hk : k' = k₀
      · subst hk
        rw [if_pos rfl, find?_cons_pair, find?_cons_pair,
          if_pos (beq_iff_eq.mpr rfl), if_pos (beq_iff_eq.mpr rfl)]
      · rw [if_neg hk]
        have hb : (k₀ == k') = false := beq_eq_false_iff_ne.mpr (fun h => hk h.symm)
        rw [find?_cons_pair, find?_cons_pair, hb]
        simp only [Bool.false_eq_true, if_false]
    · have hred : addToGroups ((k₀, l₀) :: rest) k item =
          (k₀, l₀) :: addToGroups rest k item := by
        unfold addToGroups
        rw [if_neg (by simp [h₀])]
        cases rest <;> rfl
      rw [hred]
      by_cases hk : k' = k
      · subst hk
        rw [if_pos rfl]
        have hb : (k₀ == k') = false := beq_eq_false_iff_ne.mpr h₀
        rw [find?_cons_pair, find?_cons_pair, hb]
        simp only [Bool.false_eq_true, if_false]
        rw [ih, if_pos rfl]
      · rw [if_neg hk]
        rw [find?_cons_pair, find?_cons_pair]
        by_cases h₀' : k₀ = k'
        · rw [if_pos (beq_iff_eq.mpr h₀'), if_pos (beq_iff_eq.mpr h₀')]
        · have hb : (k₀ == k') = false := beq_eq_false_iff_ne.mpr h₀'
          rw [hb]
          simp only [Bool.false_eq_true, if_false]
          rw [ih, if_neg hk]

theorem find?_groupAux :
    ∀ (data : List MonthlyData) (acc : List (String × List MonthlyData)) (k : String),
      ((data.foldl (fun gs item => addToGroups gs (keyOfRecord item) item) acc).find?
          (fun g => g.1 == k)) =
        match acc.find? (fun g => g.1 == k) with
        | some g => some (g.1, g.2 ++ data.filter (fun r => keyOfRecord r == k))
        | none =>
          if data.filter (fun r => keyOfRecord r == k) = [] then none
          else some (k, data.filter (fun r => keyOfRecord r == k)) := by
  intro data
  induction data with
  | nil =>
    intro acc k
    simp only [List.foldl_nil, List.filter_nil]
    cases h : acc.find? (fun g => g.1 == k) with
    | none => simp [h]
    | some g => simp [h]
  | cons r rest ih =>
    intro acc k
    rw [List.foldl_cons, ih]
    rw [find?_addToGroups]
    by_cases hk : k = keyOfRecord r
    · rw [if_pos hk]
      have hfil : (r :: rest).filter (fun r' => keyOfRecord r' == k) =
          r :: rest.filter (fun r' => keyOfRecord r' == k) := by
        rw [List.filter_cons, if_pos (by rw [hk]; exact beq_iff_eq.mpr rfl)]
      rw [hfil]
      rw [show acc.find? (fun g => g.1 == keyOfRecord r) = acc.find? (fun g => g.1 == k) from by
        rw [hk]]
      cases hacc : acc.find? (fun g => g.1 == k) with
      | some g => simp
      | none =>
        simp only []
        rw [if_neg (by simp)]
        simp [hk]
    · rw [if_neg hk]
      have hfil : (r :: rest).filter (fun r' => keyOfRecord r' == k) =
          rest.filter (fun r' => keyOfRecord r' == k) := by
        rw [List.filter_cons,
          if_neg (by simp only [beq_iff_eq]; exact fun h => hk h.symm)]
      rw [hfil]

theorem keys_addToGroups :
    ∀ (gs : List (String × List MonthlyData)) (k : String) (item : MonthlyData),
      (addToGroups gs k item).map Prod.fst =
        if gs.any (fun g => g.1 == k) then gs.map Prod.fst
        else gs.map Prod.fst ++ [k] := by
  intro gs
  induction gs with
  | nil => intro k item; simp [addToGroups]
  | cons g₀ rest ih =>
    intro k item
    obtain ⟨k₀, l₀⟩ := g₀
    by_cases h₀ : k₀ = k
    · subst h₀
      rw [show addToGroups ((k₀, l₀) :: rest) k₀ item = (k₀, l₀ ++ [item]) :: rest from by
        unfold addToGroups
        rw [if_pos (beq_iff_eq.mpr rfl)]]
      rw [if_pos (by simp [List.any_cons])]
      simp
    · rw [show addToGroups ((k₀, l₀) :: rest) k item =
          (k₀, l₀) :: addToGroups rest k item from by
        unfold addToGroups
        rw [if_neg (by simp [h₀])]
        cases rest <;> rfl]
      simp only [List.map_cons, ih]
      rw [show ((k₀, l₀) :: rest).any (fun g => g.1 == k) = rest.any (fun g => g.1 == k) from by
        simp [List.any_cons, h₀]]
      by_cases hany : rest.any (fun g => g.1 == k) = true
      · rw [if_pos hany, if_pos hany]
      · rw [if_neg hany, if_neg hany]
        simp

theorem not_mem_keys_of_any_false {gs : List (String × List MonthlyData)} {k : String}
    (h : gs.any (fun g => g.1 == k) = false) : k ∉ gs.map Prod.fst := by
  intro hmem
  rcases List.mem_map.mp hmem with ⟨g, hg, hfst⟩
  have : gs.any (fun g => g.1 == k) = true :=
    List.any_eq_true.mpr ⟨g, hg, beq_iff_eq.mpr hfst⟩
  rw [h] at this
  cases this

theorem nodupKeys_groupAux :
    ∀ (data : List MonthlyData) (acc : List (String × List MonthlyData)),
      ((acc.map Prod.fst).Nodup) →
      (((data.foldl (fun gs item => addToGroups gs (keyOfRecord item) item) acc).map
        Prod.fst).Nodup) := by
  intro data
  induction data with
  | nil => intro acc h; exact h
  | cons r rest ih =>
    intro acc h
    rw [List.foldl_cons]
    refine ih _ ?_
    rw [keys_addToGroups]
    by_cases hany : acc.any (fun g => g.1 == keyOfRecord r) = true
    · rw [if_pos hany]; exact h
    · rw [if_neg hany]
      have hnot : keyOfRecord r ∉ acc.map Prod.fst :=
        not_mem_keys_of_any_false (by revert hany; cases acc.any (fun g => g.1 == keyOfRecord r) <;> simp)
      simp [List.nodup_append, h, hnot]

theorem find?_of_mem_nodup :
    ∀ (gs : List (String × List MonthlyData)), ((gs.map Prod.fst).Nodup) →
      ∀ g ∈ gs, gs.find? (fun x => x.1 == g.1) = some g := by
  intro gs
  induction gs with
  | nil => intro _ g hg; cases hg
  | cons g₀ rest ih =>
    intro hnd g hg
    obtain ⟨k₀, l₀⟩ := g₀
    rw [find?_cons_pair]
    rcases List.mem_cons.mp hg with hg' | hg'
    · subst hg'
      rw [if_pos (beq_iff_eq.mpr rfl)]
    · have hk : ¬ k₀ = g.1 := by
        intro he
        have h1 : g.1 ∈ rest.map Prod.fst := List.mem_map.mpr ⟨g, hg', rfl⟩
        rw [List.map_cons, List.nodup_cons] at hnd
        exact hnd.1 (he ▸ h1)
      rw [if_neg (by simp [hk])]
      exact ih (by rw [List.map_cons, List.nodup_cons] at hnd; exact hnd.2) g hg'

theorem group_mem_eq_filter (data : List MonthlyData) (g : String × List MonthlyData)
    (hg : g ∈ groupByYearMonth data) :
    g.2 = data.filter (fun r => keyOfRecord r == g.1) ∧
    ∃ r ∈ data, keyOfRecord r = g.1 := by
  have hnd := nodupKeys_groupAux data [] (by simp)
  have hfind := find?_of_mem_nodup _ hnd g hg
  have hchar := find?_groupAux data [] g.1
  simp only [List.find?_nil] at hchar
  rw [hfind] at hchar
  by_cases hfil : data.filter (fun r => keyOfRecord r == g.1) = []
  · rw [if_pos hfil] at hchar
    cases hchar
  · rw [if_neg hfil] at hchar
    have hgeq : g = (g.1, data.filter (fun r => keyOfRecord r == g.1)) :=
      Option.some.inj hchar
    constructor
    · exact congrArg Prod.snd hgeq
    · obtain ⟨r, hr⟩ := List.exists_mem_of_ne_nil _ hfil
      exact ⟨r, (List.mem_filter.mp hr).1, beq_iff_eq.mp (List.mem_filter.mp hr).2⟩

theorem key_group_exists (data : List MonthlyData) (r : MonthlyData) (hr : r ∈ data) :
    ∃ g ∈ groupByYearMonth data, g.1 = keyOfRecord r := by
  have hchar := find?_groupAux data [] (keyOfRecord r)
  simp only [List.find?_nil] at hchar
  have hfil : data.filter (fun r' => keyOfRecord r' == keyOfRecord r) ≠ [] := by
    intro h
    have : r ∈ data.filter (fun r' => keyOfRecord r' == keyOfRecord r) :=
      List.mem_filter.mpr ⟨hr, beq_iff_eq.mpr rfl⟩
    rw [h] at this
    cases this
  rw [if_neg hfil] at hchar
  exact ⟨_, List.mem_of_find?_eq_some hchar, rfl⟩

theorem foldl_add_eq_sum {α : Type} (f : α → ℚ) :
    ∀ (l : List α) (a : ℚ), l.foldl (fun acc x => acc + f x) a = a + (l.map f).sum := by
  intro l
  induction l with
  | nil => intro a; simp
  | cons x xs ih =>
    intro a
    rw [List.foldl_cons, ih, List.map_cons, List.sum_cons]
    ring

theorem sumExempt_eq (l : List MonthlyData) :
    sumExempt l = (l.map (fun r => r.taxExemptAmount)).sum := by
  rw [sumExempt, foldl_add_eq_sum]
  ring

theorem sumTaxable_eq (l : List MonthlyData) :
    sumTaxable l = (l.map (fun r => r.taxableAmount)).sum := by
  rw [sumTaxable, foldl_add_eq_sum]
  ring

theorem filter_key_eq_filter_ym (data : List MonthlyData)
    (hall : ∀ r ∈ data, 0 ≤ r.year ∧ 0 ≤ r.month)
    (r₀ : MonthlyData) (hy₀ : 0 ≤ r₀.year) (hm₀ : 0 ≤ r₀.month) :
    data.filter (fun r => keyOfRecord r == keyOfRecord r₀) =
      data.filter (fun r => r.year == r₀.year && r.month == r₀.month) := by
  apply List.filter_congr
  intro r hr
  have hn := hall r hr
  rw [Bool.eq_iff_iff]
  simp only [beq_iff_eq, Bool.and_eq_true]
  exact keyOfRecord_eq_iff r r₀ hn.1 hn.2 hy₀ hm₀

unseal Rat.add in
/-- Claim C4 as stated is false on its own concrete instance: on the three
quoted records the yearly total is `(4 500 000, 2 250 000, 6 750 000)`
(the component-wise record sums), not the claimed
`(6 500 000, 3 250 000, 9 750 000)`. -/
theorem claim_C4_counterexample :
    (calculateTotals ⟨"Test Mall", "", [⟨1, 2024, 1000000, 500000⟩,
        ⟨1, 2024, 2000000, 1000000⟩, ⟨2, 2024, 1500000, 750000⟩]⟩).yearlyTotal =
      ⟨4500000, 2250000, 6750000⟩ ∧
    (calculateTotals ⟨"Test Mall", "", [⟨1, 2024, 1000000, 500000⟩,
        ⟨1, 2024, 2000000, 1000000⟩, ⟨2, 2024, 1500000, 750000⟩]⟩).yearlyTotal ≠
      ⟨6500000, 3250000, 9750000⟩ := by
  constructor
  · decide
  · decide

unseal Rat.add in
/-- Claim C4, amended: `calculateTotals` groups records by (year, month) —
for the nonnegative years and months date parsing produces — sums the
tax-exempt and taxable fields per group with the group total their sum,
produces a yearly total equal to the component-wise sum across the monthly
groups, and sorts the monthly list ascending by year then month regardless of
input order; on the quoted three records it yields January totals
`(3 000 000, 1 500 000, 4 500 000)` and yearly totals
`(4 500 000, 2 250 000, 6 750 000)`. -/
theorem claim_C4_amended :
    (∀ md : ShoppingMallData,
      (∀ r ∈ md.data, 0 ≤ r.year ∧ 0 ≤ r.month) →
      ((calculateTotals md).mallName = md.mallName ∧
       List.Sorted ymLE (calculateTotals md).monthlyTotals ∧
       (∀ mt ∈ (calculateTotals md).monthlyTotals,
         mt.total = mt.taxExempt + mt.taxable ∧
         mt.taxExempt = ((md.data.filter (fun r =>
           r.year == mt.year && r.month == mt.month)).map
             (fun r => r.taxExemptAmount)).sum ∧
         mt.taxable = ((md.data.filter (fun r =>
           r.year == mt.year && r.month == mt.month)).map
             (fun r => r.taxableAmount)).sum) ∧
       (∀ r ∈ md.data, ∃ mt ∈ (calculateTotals md).monthlyTotals,
         mt.year = r.year ∧ mt.month = r.month) ∧
       (calculateTotals md).yearlyTotal.taxExempt =
         (((calculateTotals md).monthlyTotals).map (fun mt => mt.taxExempt)).sum ∧
       (calculateTotals md).yearlyTotal.taxable =
         (((calculateTotals md).monthlyTotals).map (fun mt => mt.taxable)).sum ∧
       (calculateTotals md).yearlyTotal.total =
         (calculateTotals md).yearlyTotal.taxExempt +
           (calculateTotals md).yearlyTotal.taxable)) ∧
    calculateTotals ⟨"Test Mall", "", [⟨1, 2024, 1000000, 500000⟩,
        ⟨1, 2024, 2000000, 1000000⟩, ⟨2, 2024, 1500000, 750000⟩]⟩ =
      ⟨"Test Mall", [⟨1, 2024, 3000000, 1500000, 4500000⟩,
        ⟨2, 2024, 1500000, 750000, 2250000⟩], ⟨4500000, 2250000, 6750000⟩⟩ := by
  constructor
  · intro md hall
    have hmem_monthly : ∀ mt ∈ (calculateTotals md).monthlyTotals,
        mt ∈ (groupByYearMonth md.data).map mkMonthlyTotal := by
      intro mt hmt
      simp only [calculateTotals] at hmt
      exact (List.mem_insertionSort ymLE).mp hmt
    refine ⟨rfl, ?_, ?_, ?_, ?_, ?_, rfl⟩
    · simp only [calculateTotals]
      exact List.sorted_insertionSort ymLE _
    · intro mt hmt
      obtain ⟨g, hgmem, hmk⟩ := List.mem_map.mp (hmem_monthly mt hmt)
      obtain ⟨hitems, r₀, hr₀mem, hr₀key⟩ := group_mem_eq_filter md.data g hgmem
      have hym : ymOfKey g.1 = (r₀.year, r₀.month) := by
        rw [← hr₀key]
        exact ymOfKey_keyOfRecord r₀ (hall r₀ hr₀mem).1 (hall r₀ hr₀mem).2
      have hyear : mt.year = r₀.year := by
        rw [← hmk]
        simp [mkMonthlyTotal, hym]
      have hmonth : mt.month = r₀.month := by
        rw [← hmk]
        simp [mkMonthlyTotal, hym]
      have hfil : md.data.filter (fun r => r.year == mt.year && r.month == mt.month) =
          g.2 := by
        rw [hyear, hmonth, hitems, ← hr₀key]
        exact (filter_key_eq_filter_ym md.data hall r₀
          (hall r₀ hr₀mem).1 (hall r₀ hr₀mem).2).symm
      refine ⟨?_, ?_, ?_⟩
      · rw [← hmk]
        simp [mkMonthlyTotal]
      · rw [hfil, ← hmk]
        simp [mkMonthlyTotal, sumExempt_eq]
      · rw [hfil, ← hmk]
        simp [mkMonthlyTotal, sumTaxable_eq]
    · intro r hr
      obtain ⟨g, hgmem, hgkey⟩ := key_group_exists md.data r hr
      refine ⟨mkMonthlyTotal g, ?_, ?_, ?_⟩
      · simp only [calculateTotals]
        exact (List.mem_insertionSort ymLE).mpr (List.mem_map_of_mem mkMonthlyTotal hgmem)
      · have hym : ymOfKey g.1 = (r.year, r.month) := by
          rw [hgkey]
          exact ymOfKey_keyOfRecord r (hall r hr).1 (hall r hr).2
        simp [mkMonthlyTotal, hym]
      · have hym : ymOfKey g.1 = (r.year, r.month) := by
          rw [hgkey]
          exact ymOfKey_keyOfRecord r (hall r hr).1 (hall r hr).2
        simp [mkMonthlyTotal, hym]
    · simp only [calculateTotals]
      rw [foldl_add_eq_sum]
      have hperm : ((List.insertionSort ymLE ((groupByYearMonth md.data).map
          mkMonthlyTotal)).map (fun mt => mt.taxExempt)).sum =
          (((groupByYearMonth md.data).map mkMonthlyTotal).map
            (fun mt => mt.taxExempt)).sum :=
        ((List.perm_insertionSort ymLE _).map _).sum_eq
      rw [hperm]
      ring
    · simp only [calculateTotals]
      rw [foldl_add_eq_sum]
      have hperm : ((List.insertionSort ymLE ((groupByYearMonth md.data).map
          mkMonthlyTotal)).map (fun mt => mt.taxable)).sum =
          (((groupByYearMonth md.data).map mkMonthlyTotal).map
            (fun mt => mt.taxable)).sum :=
        ((List.perm_insertionSort ymLE _).map _).sum_eq
      rw [hperm]
      ring
  · decide

/-- Concrete records for the C4 witness (the claim's own instance). -/
def mdC4W : ShoppingMallData :=
  ⟨"Test Mall", "", [⟨1, 2024, 1000000, 500000⟩, ⟨1, 2024, 2000000, 1000000⟩,
    ⟨2, 2024, 1500000, 750000⟩]⟩

unseal Rat.add in
/-- Witness for the amended C4 at the claim's concrete records. -/
theorem claim_C4_witness :
    (∀ r ∈ mdC4W.data, 0 ≤ r.year ∧ 0 ≤ r.month) ∧
    ((calculateTotals mdC4W).mallName = mdC4W.mallName ∧
     List.Sorted ymLE (calculateTotals mdC4W).monthlyTotals ∧
     (∀ mt ∈ (calculateTotals mdC4W).monthlyTotals,
       mt.total = mt.taxExempt + mt.taxable ∧
       mt.taxExempt = ((mdC4W.data.filter (fun r =>
         r.year == mt.year && r.month == mt.month)).map (fun r => r.taxExemptAmount)).sum ∧
       mt.taxable = ((mdC4W.data.filter (fun r =>
         r.year == mt.year && r.month == mt.month)).map (fun r => r.taxableAmount)).sum) ∧
     (∀ r ∈ mdC4W.data, ∃ mt ∈ (calculateTotals mdC4W).monthlyTotals,
       mt.year = r.year ∧ mt.month = r.month) ∧
     (calculateTotals mdC4W).yearlyTotal.taxExempt =
       (((calculateTotals mdC4W).monthlyTotals).map (fun mt => mt.taxExempt)).sum ∧
     (calculateTotals mdC4W).yearlyTotal.taxable =
       (((calculateTotals mdC4W).monthlyTotals).map (fun mt => mt.taxable)).sum ∧
     (calculateTotals mdC4W).yearlyTotal.total =
       (calculateTotals mdC4W).yearlyTotal.taxExempt +
         (calculateTotals mdC4W).yearlyTotal.taxable) :=
  ⟨by decide, claim_C4_amended.1 mdC4W (by decide)⟩

/-! ### Header Locator (`detectHeaderRow`) -/

/-- `cell != null && cell.toString().trim() !== ''`. -/
def nonEmptyCell : Cell → Bool
  | none => false
  | some s => jsTrim s ≠ ""

/-- The fixed bilingual header keyword list (ExcelService.ts:1061-1070). -/
def headerKeywords : List String :=
  ["날짜", "일자", "date", "Date", "DATE",
   "금액", "면세", "과세", "amount", "Amount", "AMOUNT",
   "총액", "합계", "total", "Total", "TOTAL",
   "상품", "제품", "product", "Product", "PRODUCT",
   "주문", "번호", "order", "Order", "ORDER",
   "배송", "배송비", "shipping", "Shipping", "SHIPPING",
   "구분", "분류", "type", "Type", "TYPE",
   "매출", "수익", "sales", "Sales", "SALES"]

/-- `isNaN(Number(str)) || str.match(/[가-힣a-zA-Z]/)`: not a pure number, or
contains a Korean syllable or Latin letter. -/
def isTextLike (s : String) : Bool :=
  !jsIsNumeric s ||
    s.data.any (fun c =>
      ('가' ≤ c && c ≤ '힣') || ('a' ≤ c && c ≤ 'z') || ('A' ≤ c && c ≤ 'Z'))

/-- The disallowed punctuation set of scoring rule 6
(`/[!@#$%^&*()+=\[\]{};':"\\|,.<>\/?]/`, ExcelService.ts:1145-1147). -/
def punctChars : List Char :=
  ['!', '@', '#', '$', '%', '^', '&', '*', '(', ')', '+', '=', '[', ']',
   Char.ofNat 123, Char.ofNat 125, ';', Char.ofNat 39, ':', Char.ofNat 34,
   '\\', '|', ',', '.', '<', '>', '/', '?']

/-- The heuristic score of row `rowIndex` of `data`
(ExcelService.ts:1075-1153).  The JS float ratio comparisons
(`> 0.5`, `> 0.7`) are modelled by the equivalent exact integer comparisons,
whose `0/0 = NaN` comparisons are false on both sides. -/
def scoreRow (data : Grid) (rowIndex : Nat) : Nat :=
  let row := data.getD rowIndex []
  let nonEmpty := row.filter nonEmptyCell
  let s1 := if 2 * nonEmpty.length > row.length then 20 else 0
  let kwMatches := (nonEmpty.filter (fun c =>
    headerKeywords.any (fun kw =>
      strHasSub (lowerStr (c.getD "")) (lowerStr kw)))).length
  let s2 := if kwMatches > 0 then kwMatches * 15 else 0
  let textCount := (nonEmpty.filter (fun c => isTextLike (c.getD ""))).length
  let s3 := if 10 * textCount > 7 * nonEmpty.length then 25 else 0
  let s4 :=
    if rowIndex + 1 < data.length then
      let nextRow := data.getD (rowIndex + 1) []
      let nextNums := (nextRow.filter (fun c =>
        c ≠ none && jsIsNumeric (c.getD "") && jsTrim (c.getD "") ≠ "")).length
      let nonNull := (nextRow.filter (fun c => c ≠ none)).length
      if 10 * textCount > 7 * nonEmpty.length ∧ 2 * nextNums > nonNull then 30 else 0
    else 0
  let s5 :=
    if rowIndex > 0 ∧ ((data.getD (rowIndex - 1) []).filter nonEmptyCell).length = 0
    then 10 else 0
  let s6 :=
    if nonEmpty.any (fun c => (c.getD "").data.any (fun ch => ch ∈ punctChars))
    then 0 else 5
  s1 + s2 + s3 + s4 + s5 + s6

/-- A scored header-row candidate. -/
structure HeaderCand where
  row : Nat
  score : Nat
  deriving DecidableEq, Repr

/-- The candidate (if any) contributed by row `i`: skipped when the row has
no non-empty cell or scores 0. -/
def candAt (data : Grid) (i : Nat) : Option HeaderCand :=
  if ((data.getD i []).filter nonEmptyCell).length = 0 then none
  else if scoreRow data i > 0 then some ⟨i, scoreRow data i⟩ else none

/-- The candidate list of `detectHeaderRow`: the first ten rows, skipping
rows with no non-empty cell, keeping rows with a positive score, in row
order. -/
def headerCandidates (data : Grid) : List HeaderCand :=
  (List.range (min 10 data.length)).filterMap (candAt data)

/-- Stable descending insertion: a new element goes after all existing
elements of greater-or-equal score, which is exactly the order the stable
`candidates.sort((a, b) => b.score - a.score)` produces. -/
def insertCandDesc (x : HeaderCand) : List HeaderCand → List HeaderCand
  | [] => [x]
  | y :: ys => if y.score ≥ x.score then y :: insertCandDesc x ys else x :: y :: ys

/-- Stable sort of the candidates by score descending. -/
def sortCandsDesc (l : List HeaderCand) : List HeaderCand :=
  l.foldl (fun acc x => insertCandDesc x acc) []

/-- Embedding of `ExcelService.detectHeaderRow` (ExcelService.ts:1033-1185),
restricted to its outputs the claim is about: the chosen header row and the
confidence.  (The multi-row follow-up `detectMultiRowHeaders` is separate
and not part of this claim.) -/
def detectHeaderRow (data : Grid) : Nat × Nat :=
  match sortCandsDesc (headerCandidates data) with
  | [] => (0, 30)
  | best :: _ => (best.row, min 100 best.score)

/-- Leftmost maximal-score candidate (spec side): strict improvement only,
so the earliest (lowest-row) candidate wins ties. -/
def pickBest (c : HeaderCand) (cs : List HeaderCand) : HeaderCand :=
  cs.foldl (fun b x => if x.score > b.score then x else b) c

/-- Spec-side scoring formula, written rule by rule after the itemized
algorithm of the header-locator contract (rules 2-7).  Float ratio
thresholds are rendered as the equivalent exact integer comparisons; rule 6
("immediately preceding row is absent or entirely empty") presupposes a
preceding row, i.e. applies only to rows of positive index, where an absent
(hole) row is the empty row. -/
def specScore (data : Grid) (rowIndex : Nat) : Nat :=
  let row := data.getD rowIndex []
  let nonEmpty := row.filter nonEmptyCell
  let rule2 := if 2 * nonEmpty.length > row.length then 20 else 0
  let rule3 := 15 * (nonEmpty.filter (fun c =>
    headerKeywords.any (fun kw =>
      strHasSub (lowerStr (c.getD "")) (lowerStr kw)))).length
  let textCount := (nonEmpty.filter (fun c => isTextLike (c.getD ""))).length
  let rule4 := if 10 * textCount > 7 * nonEmpty.length then 25 else 0
  let rule5 :=
    if rowIndex + 1 < data.length then
      let nextRow := data.getD (rowIndex + 1) []
      let nextNums := (nextRow.filter (fun c =>
        c ≠ none && jsIsNumeric (c.getD "") && jsTrim (c.getD "") ≠ "")).length
      let nonNull := (nextRow.filter (fun c => c ≠ none)).length
      if 10 * textCount > 7 * nonEmpty.length ∧ 2 * nextNums > nonNull then 30 else 0
    else 0
  let rule6 :=
    if rowIndex > 0 ∧ ((data.getD (rowIndex - 1) []).filter nonEmptyCell).length = 0
    then 10 else 0
  let rule7 :=
    if nonEmpty.any (fun c => (c.getD "").data.any (fun ch => ch ∈ punctChars))
    then 0 else 5
  rule2 + rule3 + rule4 + rule5 + rule6 + rule7

lemma scoreRow_eq_specScore (data : Grid) (i : Nat) :
    scoreRow data i = specScore data i := by
  unfold scoreRow specScore
  have h : ∀ n : Nat, (if n > 0 then n * 15 else 0) = 15 * n := by
    intro n
    by_cases hn : n > 0
    · rw [if_pos hn, Nat.mul_comm]
    · rw [if_neg hn]
      omega
  simp only [h]

lemma insertCandDesc_head (x y : HeaderCand) (ys : List HeaderCand) :
    (insertCandDesc x (y :: ys)).head? =
      some (if x.score > y.score then x else y) := by
  unfold insertCandDesc
  by_cases h : y.score ≥ x.score
  · rw [if_pos h, if_neg (by omega)]
    rfl
  · rw [if_neg h, if_pos (by omega)]
    rfl

lemma head_foldl_insert (cs : List HeaderCand) :
    ∀ (acc : List HeaderCand) (c : HeaderCand), acc.head? = some c →
      (cs.foldl (fun a x => insertCandDesc x a) acc).head? =
        some (pickBest c cs) := by
  induction cs with
  | nil =>
    intro acc c h
    simpa [pickBest] using h
  | cons x rest ih =>
    intro acc c h
    obtain ⟨t, rfl⟩ : ∃ t, acc = c :: t := by
      cases acc with
      | nil => simp at h
      | cons a t =>
        simp only [List.head?_cons, Option.some.injEq] at h
        exact ⟨t, by rw [h]⟩
    rw [List.foldl_cons]
    have h2 := insertCandDesc_head x c t
    have h3 := ih _ _ h2
    rw [h3]
    rfl

lemma head_sortCandsDesc (c : HeaderCand) (cs : List HeaderCand) :
    (sortCandsDesc (c :: cs)).head? = some (pickBest c cs) := by
  unfold sortCandsDesc
  rw [List.foldl_cons]
  exact head_foldl_insert cs (insertCandDesc c []) c rfl

lemma pickBest_mem (c : HeaderCand) (cs : List HeaderCand) :
    pickBest c cs ∈ c :: cs := by
  induction cs generalizing c with
  | nil => simp [pickBest]
  | cons x rest ih =>
    have heq : pickBest c (x :: rest) =
        pickBest (if x.score > c.score then x else c) rest := rfl
    rw [heq]
    have h := ih (if x.score > c.score then x else c)
    rw [List.mem_cons] at h ⊢
    rcases h with h | h
    · by_cases hx : x.score > c.score
      · rw [if_pos hx] at h ⊢
        right
        rw [h]
        exact List.mem_cons_self x rest
      · rw [if_neg hx] at h ⊢
        left
        exact h
    · right
      exact List.mem_cons_of_mem x h

lemma pickBest_self_le (c : HeaderCand) (cs : List HeaderCand) :
    c.score ≤ (pickBest c cs).score := by
  induction cs generalizing c with
  | nil => exact Nat.le_refl _
  | cons x rest ih =>
    have heq : pickBest c (x :: rest) =
        pickBest (if x.score > c.score then x else c) rest := rfl
    rw [heq]
    refine Nat.le_trans ?_ (ih (if x.score > c.score then x else c))
    split <;> omega

lemma pickBest_score_le (c : HeaderCand) (cs : List HeaderCand) :
    ∀ d ∈ c :: cs, d.score ≤ (pickBest c cs).score := by
  induction cs generalizing c with
  | nil =>
    intro d hd
    rw [List.mem_singleton] at hd
    rw [hd]
    exact pickBest_self_le c []
  | cons x rest ih =>
    intro d hd
    have heq : pickBest c (x :: rest) =
        pickBest (if x.score > c.score then x else c) rest := rfl
    rw [heq]
    rcases List.mem_cons.mp hd with rfl | h
    · refine Nat.le_trans ?_ (pickBest_self_le _ rest)
      split <;> omega
    · rcases List.mem_cons.mp h with rfl | h2
      · refine Nat.le_trans ?_ (pickBest_self_le _ rest)
        split <;> omega
      · exact ih _ d (List.mem_cons_of_mem _ h2)

lemma pickBest_leftmost (cs : List HeaderCand) :
    ∀ (c : HeaderCand), (c :: cs).Pairwise (fun a b => a.row < b.row) →
      ∀ d ∈ c :: cs, d.score = (pickBest c cs).score →
        (pickBest c cs).row ≤ d.row := by
  induction cs with
  | nil =>
    intro c _ d hd _
    rw [List.mem_singleton] at hd
    subst hd
    exact Nat.le_refl _
  | cons x rest ih =>
    intro c hp d hd hsc
    have hpc := List.pairwise_cons.mp hp
    have hpx := List.pairwise_cons.mp hpc.2
    have heq : pickBest c (x :: rest) =
        pickBest (if x.score > c.score then x else c) rest := rfl
    rw [heq] at hsc ⊢
    have hp' : ((if x.score > c.score then x else c) :: rest).Pairwise
        (fun a b => a.row < b.row) := by
      rw [List.pairwise_cons]
      refine ⟨?_, hpx.2⟩
      intro b hb
      split
      · exact hpx.1 b hb
      · exact hpc.1 b (List.mem_cons_of_mem _ hb)
    rcases List.mem_cons.mp hd with hdc | hd2
    · rw [hdc] at hsc ⊢
      by_cases hx : x.score > c.score
      · rw [if_pos hx] at hsc
        have h1 := pickBest_self_le x rest
        omega
      · rw [if_neg hx] at hsc hp' ⊢
        exact ih c hp' c (List.mem_cons_self c rest) hsc
    · rcases List.mem_cons.mp hd2 with hdx | hd3
      · rw [hdx] at hsc ⊢
        by_cases hx : x.score > c.score
        · rw [if_pos hx] at hsc hp' ⊢
          exact ih x hp' x (List.mem_cons_self x rest) hsc
        · rw [if_neg hx] at hsc hp' ⊢
          have hcle := pickBest_self_le c rest
          have hceq : c.score = (pickBest c rest).score := by omega
          have hrow := ih c hp' c (List.mem_cons_self c rest) hceq
          have hcx : c.row < x.row := hpc.1 x (List.mem_cons_self x rest)
          omega
      · exact ih _ hp' d (List.mem_cons_of_mem _ hd3) hsc

lemma pairwise_filterMap_row (f : Nat → Option HeaderCand)
    (hf : ∀ i c, f i = some c → c.row = i) :
    ∀ l : List Nat, l.Pairwise (· < ·) →
      (l.filterMap f).Pairwise (fun a b => a.row < b.row) := by
  intro l
  induction l with
  | nil =>
    intro _
    simp
  | cons i rest ih =>
    intro hp
    rcases List.pairwise_cons.mp hp with ⟨h1, h2⟩
    cases hfi : f i with
    | none =>
      rw [List.filterMap_cons_none hfi]
      exact ih h2
    | some c =>
      rw [List.filterMap_cons_some hfi]
      rw [List.pairwise_cons]
      refine ⟨?_, ih h2⟩
      intro b hb
      rcases List.mem_filterMap.mp hb with ⟨j, hj, hfj⟩
      rw [hf i c hfi, hf j b hfj]
      exact h1 j hj

lemma candAt_row (data : Grid) (i : Nat) (c : HeaderCand) :
    candAt data i = some c → c.row = i := by
  intro h
  unfold candAt at h
  split at h
  · exact Option.noConfusion h
  · split at h
    · injection h with h2
      rw [← h2]
    · exact Option.noConfusion h

lemma pairwise_row_headerCandidates (data : Grid) :
    (headerCandidates data).Pairwise (fun a b => a.row < b.row) := by
  unfold headerCandidates
  exact pairwise_filterMap_row (candAt data) (candAt_row data) _
    (List.pairwise_lt_range _)

/-- **C1.** `detectHeaderRow` evaluates at most the first 10 rows, skips
rows with zero non-empty cells, and scores each remaining row exactly by
the spec's itemized formula (`specScore`: +20 for non-empty ratio > 0.5,
+15 per keyword cell, +25 for text-likeness > 0.7, +30 for a text row
followed by a numeric row, +10 for a row of positive index whose preceding
row is a hole or entirely empty, +5 for no disallowed punctuation).  It
returns the highest-scoring candidate with ties broken by the lower row
index, with confidence `min 100 score`, and defaults to row 0 with
confidence 30 when no row scores above 0. -/
theorem claim_C1 (data : Grid) :
    (∀ i, scoreRow data i = specScore data i) ∧
    (headerCandidates data = [] → detectHeaderRow data = (0, 30)) ∧
    (∀ c cs, headerCandidates data = c :: cs →
      detectHeaderRow data =
        ((pickBest c cs).row, min 100 (pickBest c cs).score) ∧
      pickBest c cs ∈ headerCandidates data ∧
      (∀ d ∈ headerCandidates data, d.score ≤ (pickBest c cs).score) ∧
      (∀ d ∈ headerCandidates data,
        d.score = (pickBest c cs).score → (pickBest c cs).row ≤ d.row)) := by
  refine ⟨scoreRow_eq_specScore data, ?_, ?_⟩
  · intro h
    unfold detectHeaderRow
    rw [h]
    rfl
  · intro c cs h
    have hhead : (sortCandsDesc (headerCandidates data)).head? =
        some (pickBest c cs) := by
      rw [h]
      exact head_sortCandsDesc c cs
    have hdet : detectHeaderRow data =
        ((pickBest c cs).row, min 100 (pickBest c cs).score) := by
      cases hs : sortCandsDesc (headerCandidates data) with
      | nil =>
        rw [hs] at hhead
        exact Option.noConfusion hhead
      | cons b t =>
        rw [hs] at hhead
        simp only [List.head?_cons, Option.some.injEq] at hhead
        unfold detectHeaderRow
        rw [hs, hhead]
    refine ⟨hdet, ?_, ?_, ?_⟩
    · rw [h]
      exact pickBest_mem c cs
    · rw [h]
      exact pickBest_score_le c cs
    · rw [h]
      have hp : (c :: cs).Pairwise (fun a b => a.row < b.row) := by
        rw [← h]
        exact pairwise_row_headerCandidates data
      exact pickBest_leftmost cs c hp

/-- Concrete sheet for the C1 witness: a bilingual header row followed by a
numeric data row. -/
def gridC1W : Grid := [[some "날짜", some "금액"], [some "1", some "2"]]

theorem claim_C1_witness :
    headerCandidates gridC1W = [⟨0, 110⟩, ⟨1, 25⟩] ∧
    detectHeaderRow ([] : Grid) = (0, 30) ∧
    detectHeaderRow gridC1W = (0, 100) :=
  ⟨by decide,
   (claim_C1 []).2.1 rfl,
   by
     have h := ((claim_C1 gridC1W).2.2 ⟨0, 110⟩ [⟨1, 25⟩] (by decide)).1
     exact h.trans (by decide)⟩
